import Mathlib

/-!
Verification of the devpipe event ingestion and reduction pipeline
(`src/monitor.py`): fingerprint-based network deduplication, structural-diff
reduction, debounced resource bundling, UI-click rate limiting, and the
logging gate.  Python values are embedded as the inductive type `PyVal`;
Python strings are embedded as `List Char` (called `Str` below) so that
slicing and length behave like the source's code-point operations.
-/

/-- Embedded Python strings: lists of characters. -/
abbrev Str := List Char

/-- Embedding of the loosely typed Python values (JSON-like dicts/lists)
that flow through the pipeline.  Python dicts are association lists in
insertion order, matching CPython's ordered dicts. -/
inductive PyVal where
  | str : Str → PyVal
  | int : Int → PyVal
  | bool : Bool → PyVal
  | null : PyVal
  | list : List PyVal → PyVal
  | dict : List (Str × PyVal) → PyVal

/-- First-match association-list lookup, the embedding of a Python dict
access (CPython dicts have unique keys, so first match is the match). -/
def lookupStr : List (Str × PyVal) → Str → Option PyVal
  | [], _ => none
  | (k, v) :: rest, key => if k = key then some v else lookupStr rest key

/-- Embedding of `d.get(key)` (returns `None`, i.e. `none`, when absent or
when the receiver is not a dict; every call site in the source applies it
to a dict). -/
def PyVal.get (v : PyVal) (k : Str) : Option PyVal :=
  match v with
  | .dict kvs => lookupStr kvs k
  | _ => none

/-- String extraction with default `''`, embedding `x.get(k, '')`-style
reads that the source immediately uses as strings. -/
def asStr (v : Option PyVal) : Str :=
  match v with
  | some (.str s) => s
  | _ => []

/-- String extraction with an explicit default, for
`frame.get('functionName', 'anonymous')`. -/
def asStrD (v : Option PyVal) (dflt : Str) : Str :=
  match v with
  | some (.str s) => s
  | _ => dflt

/-- List extraction with default `[]`. -/
def asList (v : Option PyVal) : List PyVal :=
  match v with
  | some (.list l) => l
  | _ => []

/-- `NetworkDeduplicator.MAX_VALUE_LENGTH` (monitor.py line 731). -/
def MAX_VALUE_LENGTH : Nat := 128

/-- `NetworkDeduplicator.MAX_URL_LENGTH` (monitor.py line 732). -/
def MAX_URL_LENGTH : Nat := 200

mutual

/-- Embedding of `NetworkDeduplicator._truncate_value` (monitor.py lines
905-915): long strings are cut to `MAX_VALUE_LENGTH` and annotated with the
original length, dicts and lists are capped to their first 5 entries and
truncated recursively, and every other value is returned unchanged. -/
def truncateValue : PyVal → PyVal
  | .str s =>
    if MAX_VALUE_LENGTH < s.length then
      .str (s.take MAX_VALUE_LENGTH ++ "... (".toList
        ++ (Nat.repr s.length).toList ++ " chars)".toList)
    else .str s
  | .dict kvs => .dict (truncatePairs 5 kvs)
  | .list xs => .list (truncateList 5 xs)
  | .int n => .int n
  | .bool b => .bool b
  | .null => .null

/-- The dict comprehension `{k: trunc(v) for k, v in list(value.items())[:5]}`:
truncate the values of the first `n` entries.  This fuses the source's
`[:5]` slice with the recursive map over the kept entries. -/
def truncatePairs : Nat → List (Str × PyVal) → List (Str × PyVal)
  | 0, _ => []
  | _, [] => []
  | n + 1, (k, v) :: rest => (k, truncateValue v) :: truncatePairs n rest

/-- The list comprehension `[trunc(v) for v in value[:5]]`, fused likewise. -/
def truncateList : Nat → List PyVal → List PyVal
  | 0, _ => []
  | _, [] => []
  | n + 1, v :: rest => truncateValue v :: truncateList n rest

end

mutual

/-- A value none of whose nested strings exceeds `MAX_VALUE_LENGTH`. -/
def allShort : PyVal → Bool
  | .str s => s.length ≤ MAX_VALUE_LENGTH
  | .dict kvs => allShortPairs kvs
  | .list xs => allShortList xs
  | .int _ => true
  | .bool _ => true
  | .null => true

/-- All dict entry values satisfy `allShort`. -/
def allShortPairs : List (Str × PyVal) → Bool
  | [] => true
  | (_, v) :: rest => allShort v && allShortPairs rest

/-- All list elements satisfy `allShort`. -/
def allShortList : List PyVal → Bool
  | [] => true
  | v :: rest => allShort v && allShortList rest

end

/-! ### UI-click rate limiter (monitor.py lines 124-134, 146-148, 159-160) -/

/-- `EventDrivenMonitor.RATE_LIMIT_COUNT` (line 146). -/
def RATE_LIMIT_COUNT : Nat := 3

/-- `EventDrivenMonitor.RATE_LIMIT_WINDOW` = 1 second, in milliseconds (line 147). -/
def RATE_LIMIT_WINDOW : Int := 1000

/-- `EventDrivenMonitor.MICRO_DEBOUNCE_WINDOW` = 200 milliseconds (line 148). -/
def MICRO_DEBOUNCE_WINDOW : Int := 200

/-- The monitor's shared rate-limiter state: `_ui_click_timestamps` (a deque
of accepted click times) and `_last_log_time`.  Times are milliseconds as
`Int`; `last = none` embeds the `datetime.min` sentinel of line 160 (with
real clocks `now - datetime.min` always exceeds the debounce window). -/
structure ClickState where
  window : List Int
  last : Option Int
deriving DecidableEq

/-- Initial state (lines 159-160). -/
def initClickState : ClickState := ⟨[], none⟩

/-- The `while` loop of lines 128-130: pop entries from the front of the
deque while they are older than `now - RATE_LIMIT_WINDOW`. -/
def evictOld (t : Int) : List Int → List Int
  | [] => []
  | x :: xs => if x < t - RATE_LIMIT_WINDOW then evictOld t xs else x :: xs

/-- Lines 128-134 after the micro-debounce check: evict the expired window
entries, reject if the remaining window is full, else accept and record the
click in the window and as the new debounce baseline. -/
def clickWindowStep (s : ClickState) (t : Int) : Bool × ClickState :=
  let w := evictOld t s.window
  if RATE_LIMIT_COUNT ≤ w.length then (false, ⟨w, s.last⟩)
  else (true, ⟨w ++ [t], some t⟩)

/-- One click through the handler's rate-limiting section (lines 125-134):
reject outright when within `MICRO_DEBOUNCE_WINDOW` of the last accepted
click, otherwise apply the sliding-window check. -/
def clickStep (s : ClickState) (t : Int) : Bool × ClickState :=
  match s.last with
  | some l => if t - l < MICRO_DEBOUNCE_WINDOW then (false, s) else clickWindowStep s t
  | none => clickWindowStep s t

/-- Run a sequence of click timestamps through the limiter, returning the
final state and the accepted subsequence. -/
def runClicks (s : ClickState) : List Int → ClickState × List Int
  | [] => (s, [])
  | t :: ts =>
    let r := clickStep s t
    let rest := runClicks r.2 ts
    (rest.1, if r.1 then t :: rest.2 else rest.2)

/-- The accepted subsequence of a click-timestamp sequence, starting from
the monitor's initial state. -/
def acceptedClicks (ts : List Int) : List Int := (runClicks initClickState ts).2

/-! ### URL parsing and the request fingerprint (monitor.py lines 760-766) -/

/-- Split a character list at the first occurrence of any stop character;
the second component starts with the stop character when one occurs. -/
def splitFirst (stops : List Char) : Str → Str × Str
  | [] => ([], [])
  | c :: cs =>
    if c ∈ stops then ([], c :: cs)
    else
      let p := splitFirst stops cs
      (c :: p.1, p.2)

/-- The five components `urllib.parse.urlparse` exposes that the source
reads (`params` is unused by the source and omitted). -/
structure UrlParts where
  scheme : Str
  netloc : Str
  path : Str
  query : Str
  frag : Str
deriving DecidableEq

/-- Modelled from the documented behaviour of Python's
`urllib.parse.urlparse` (stdlib, outside this repository) on the absolute
URLs the source feeds it: the fragment is split off at the first `#`, the
scheme at the first `:`, the network location follows `//` and ends at the
first `/` or `?`, and the query follows the first `?` of the remainder. -/
def urlparse (url : Str) : UrlParts :=
  let f := splitFirst ['#'] url
  let frag := f.2.drop 1
  let s := splitFirst [':'] f.1
  let scheme := if s.2 = [] then [] else s.1
  let afterScheme := if s.2 = [] then f.1 else s.2.drop 1
  if afterScheme.take 2 = ['/', '/'] then
    let n := splitFirst ['/', '?'] (afterScheme.drop 2)
    let p := splitFirst ['?'] n.2
    ⟨scheme, n.1, p.1, p.2.drop 1, frag⟩
  else
    let p := splitFirst ['?'] afterScheme
    ⟨scheme, [], p.1, p.2.drop 1, frag⟩

/-- The fingerprint f-string of monitor.py line 766:
`tab_id :: method :: scheme://netloc+path` — query and fragment excluded. -/
def fingerprint (tabId method url : Str) : Str :=
  let parsed := urlparse url
  tabId ++ "::".toList ++ method ++ "::".toList
    ++ parsed.scheme ++ "://".toList ++ parsed.netloc ++ parsed.path

/-! ### URL simplification (monitor.py lines 885-903) -/

/-- `query.split('&')`: split on every ampersand (Python `str.split` with a
separator always yields at least one piece). -/
def splitAmp : Str → List Str
  | [] => [[]]
  | c :: cs =>
    if c = '&' then [] :: splitAmp cs
    else
      match splitAmp cs with
      | [] => [[c]]
      | seg :: rest => (c :: seg) :: rest

/-- Embedding of `NetworkDeduplicator._simplify_url` (lines 885-903). -/
def simplifyUrl (url : Str) : Str :=
  if url.length ≤ MAX_URL_LENGTH then url
  else
    let parsed := urlparse url
    let base := parsed.scheme ++ "://".toList ++ parsed.netloc ++ parsed.path
    if MAX_URL_LENGTH < base.length then base.take MAX_URL_LENGTH ++ "...".toList
    else if parsed.query ≠ [] then
      let params := splitAmp parsed.query
      if 3 < params.length then
        base ++ "?".toList ++ params.headI ++ "&...(".toList
          ++ (Nat.repr params.length).toList ++ " params)".toList
      else base ++ "?".toList ++ parsed.query.take 50 ++ "...".toList
    else base

/-! ### Event simplification (monitor.py lines 837-883) -/

/-- `frame.get('functionName', 'anonymous')[:50]` etc. for one stack frame
of `_simplify_initiator` (lines 874-881). -/
def simplifyFrame (frame : PyVal) : PyVal :=
  .dict [
    ("function".toList, .str ((asStrD (frame.get "functionName".toList) "anonymous".toList).take 50)),
    ("url".toList, .str (simplifyUrl (asStr (frame.get "url".toList)))),
    ("line".toList, (frame.get "lineNumber".toList).getD .null)]

/-- Embedding of `NetworkDeduplicator._simplify_initiator` (lines 863-883):
keep the type, a simplified url when present, and at most the top 3 stack
frames, each simplified. -/
def simplifyInitiator (ini : PyVal) : PyVal :=
  let base := [("type".toList, (ini.get "type".toList).getD .null)]
  let withUrl :=
    match ini.get "url".toList with
    | some u => base ++ [("url".toList, .str (simplifyUrl (asStr (some u))))]
    | none => base
  let withStack :=
    match ini.get "stack".toList with
    | some stack =>
      let frames := (asList (stack.get "callFrames".toList)).take 3
      withUrl ++ [("stack".toList, .list (frames.map simplifyFrame))]
    | none => withUrl
  .dict withStack

/-- The three "important" header names of lines 855-857. -/
def importantHeaderKeys : List Str :=
  ["Content-Type".toList, "Authorization".toList, "X-Requested-With".toList]

/-- The loop of lines 854-857: keep only the important headers, each
truncated. -/
def importantHeaders (headers : PyVal) : List (Str × PyVal) :=
  importantHeaderKeys.filterMap fun k =>
    match headers.get k with
    | some v => some (k, truncateValue v)
    | none => none

/-- Embedding of `NetworkDeduplicator._simplify_event` (lines 837-861),
building the dict in the source's insertion order. -/
def simplifyEvent (e : PyVal) : PyVal :=
  let request := (e.get "request".toList).getD (.dict [])
  let base : List (Str × PyVal) := [
    ("requestId".toList, (e.get "requestId".toList).getD .null),
    ("method".toList, (request.get "method".toList).getD .null),
    ("url".toList, .str (simplifyUrl (asStr (request.get "url".toList)))),
    ("type".toList, (e.get "type".toList).getD .null)]
  let withInit :=
    match e.get "initiator".toList with
    | some ini => base ++ [("initiator".toList, simplifyInitiator ini)]
    | none => base
  let ih := importantHeaders ((request.get "headers".toList).getD (.dict []))
  if ih.isEmpty then .dict withInit else .dict (withInit ++ [("headers".toList, .dict ih)])

/-! ### Structural-diff filtering (monitor.py lines 774-792, 917-926) -/

/-- Substring test used by `_should_skip_path`'s `pattern in path`. -/
def containsSub (pat : Str) : Str → Bool
  | [] => pat.isPrefixOf []
  | c :: rest => pat.isPrefixOf (c :: rest) || containsSub pat rest

/-- The deny-list of `_should_skip_path` (lines 919-925). -/
def skipPatterns : List Str :=
  ["callFrames".toList, "postData".toList, "postDataEntries".toList,
   "wallTime".toList, "timestamp".toList]

/-- Embedding of `NetworkDeduplicator._should_skip_path` (lines 917-926). -/
def shouldSkipPath (path : Str) : Bool :=
  skipPatterns.any fun pat => containsSub pat path

/-- The parts of a `deepdiff.DeepDiff` result that the source reads or that
the claims mention.  `DeepDiff` is an external library, so its output is
taken as given: `valuesChanged` maps a diff path to the library's change
object (a dict exposing `new_value`), and the added/removed path lists
stand for the `*_item_added` / `*_item_removed` keys the source ignores. -/
structure DiffResult where
  valuesChanged : List (Str × PyVal)
  itemsAdded : List Str
  itemsRemoved : List Str

/-- `change.get('new_value', change)` of line 781. -/
def newValOf (change : PyVal) : PyVal := (change.get "new_value".toList).getD change

/-- The loop of lines 777-782: keep only `values_changed` entries whose
path is not deny-listed, truncating each new value. -/
def computeChanges (d : DiffResult) : List (Str × PyVal) :=
  d.valuesChanged.filterMap fun pc =>
    if shouldSkipPath pc.1 then none else some (pc.1, truncateValue (newValOf pc.2))

/-! ### Network deduplication (monitor.py lines 736-792) -/

/-- `NetworkDeduplicator.BUNDLED_TYPES` (line 736). -/
def BUNDLED_TYPES : List Str :=
  ["Stylesheet".toList, "Script".toList, "Image".toList, "Font".toList,
   "Media".toList, "Other".toList, "Manifest".toList]

/-- `event.get('type', 'Other')` (line 753). -/
def eventType (e : PyVal) : PyVal := (e.get "type".toList).getD (.str "Other".toList)

/-- `request_type in self.BUNDLED_TYPES` (line 757); a non-string type value
is never a member of the string set. -/
def isBundled (e : PyVal) : Bool :=
  match eventType e with
  | .str s => BUNDLED_TYPES.contains s
  | _ => false

/-- `event.get('tab_id', 'main')` read as a string (line 754; the tracker of
line 108 always stores a string tab id there). -/
def tabStr (e : PyVal) : Str := asStrD (e.get "tab_id".toList) "main".toList

/-- `event.get('request', {}).get('url', '')` (lines 761-762). -/
def urlStr (e : PyVal) : Str :=
  asStr (((e.get "request".toList).getD (.dict [])).get "url".toList)

/-- `event.get('request', {}).get('method', '')` (lines 761-763). -/
def methodStr (e : PyVal) : Str :=
  asStr (((e.get "request".toList).getD (.dict [])).get "method".toList)

/-- The fingerprint of a network event (lines 765-766). -/
def eventFp (e : PyVal) : Str := fingerprint (tabStr e) (methodStr e) (urlStr e)

/-- Sanity of a raw network event: the fields the dedup path reads are
either absent or of the type the source then uses without checking (a
non-conforming value would raise inside CPython before any record were
emitted, so such events are outside the modelled domain). -/
def wfNet (e : PyVal) : Bool :=
  (match e.get "tab_id".toList with | some (.str _) => true | none => true | _ => false) &&
  (match e.get "type".toList with | some (.str _) => true | none => true | _ => false) &&
  (match e.get "request".toList with
   | some (.dict kvs) =>
     (match lookupStr kvs "url".toList with | some (.str _) => true | none => true | _ => false) &&
     (match lookupStr kvs "method".toList with | some (.str _) => true | none => true | _ => false)
   | none => true
   | _ => false)

/-- `simplified['tab_id'] = tab_id` (line 771): Python dict assignment,
replacing the value when the key exists and appending otherwise. -/
def setKeyPairs : List (Str × PyVal) → Str → PyVal → List (Str × PyVal)
  | [], k, x => [(k, x)]
  | (k0, v0) :: rest, k, x =>
    if k0 = k then (k, x) :: rest else (k0, v0) :: setKeyPairs rest k x

/-- Dict assignment lifted to `PyVal` (non-dicts are untouched; the source
only assigns into dicts). -/
def setKey (v : PyVal) (k : Str) (x : PyVal) : PyVal :=
  match v with
  | .dict kvs => .dict (setKeyPairs kvs k x)
  | other => other

/-- An emitted record: its type tag and its data payload, as handed to
`self._log_callback(tag, data)`. -/
abbrev Rec := Str × PyVal

/-- The reference table `_reference_requests` (line 739), in insertion
order. -/
abbrev RefTable := List (Str × PyVal)

/-- Embedding of the non-bundled branch of `NetworkDeduplicator.process`
(lines 751-792).  The structural diff is a parameter `d` standing for
`DeepDiff(reference_event, event, ignore_order=True)`; bundled events are
routed to the resource bundle (modelled separately) and emit nothing here.
Returns the updated reference table and the records emitted for this
event. -/
def processOne (d : PyVal → PyVal → DiffResult) (refs : RefTable) (e : PyVal) :
    RefTable × List Rec :=
  if isBundled e then (refs, [])
  else
    let tab := tabStr e
    let url := urlStr e
    let method := methodStr e
    let fp := fingerprint tab method url
    match lookupStr refs fp with
    | none =>
      (refs ++ [(fp, e)],
       [("NETWORK_REQUEST".toList, setKey (simplifyEvent e) "tab_id".toList (.str tab))])
    | some ref =>
      let changes := computeChanges (d ref e)
      if changes.isEmpty then (refs, [])
      else
        (refs,
         [("NETWORK_DIFF".toList, .dict [
            ("fingerprint".toList, .str fp),
            ("tab_id".toList, .str tab),
            ("method".toList, .str method),
            ("url".toList, .str (simplifyUrl url)),
            ("changes".toList, .dict changes)])])

/-- Process a list of network events, pairing each event with the records
it emitted and returning the final reference table. -/
def processTrace (d : PyVal → PyVal → DiffResult) (refs : RefTable) :
    List PyVal → List (PyVal × List Rec) × RefTable
  | [] => ([], refs)
  | e :: es =>
    let r := processOne d refs e
    let rest := processTrace d r.1 es
    ((e, r.2) :: rest.1, rest.2)

/-! ### Resource bundling (monitor.py lines 733, 738-749, 794-835) -/

/-- `NetworkDeduplicator.BUNDLE_WINDOW`, in the same (integer) time unit as
the add timestamps below. -/
def BUNDLE_WINDOW : Nat := 1000

/-- `event.get('type', 'Other').lower() + 's'` (line 824): the pluralized
resource-type key of a bundled event. -/
def typeKeyStr (e : PyVal) : Str :=
  (asStrD (e.get "type".toList) "Other".toList).map Char.toLower ++ "s".toList

/-- First-occurrence deduplication, the key order of a Python dict built by
inserting in iteration order. -/
def firstDedup : List Str → List Str
  | [] => []
  | x :: xs => x :: firstDedup (xs.filter (fun y => y ≠ x))
termination_by l => l.length
decreasing_by
  simp only [List.length_cons]
  exact Nat.lt_succ_of_le (List.length_filter_le _ _)

/-- The distinct tab ids of the bundle, in first-occurrence order — the
iteration order of `by_tab_and_type` (lines 820-829). -/
def tabsOf (bundle : List PyVal) : List Str := firstDedup (bundle.map tabStr)

/-- The `RESOURCE_BUNDLE` payload for one tab (lines 826-831): the tab's
pluralized type keys in first-occurrence order, each mapped to the
simplified URLs of that tab's events of that type in arrival order, with
`tab_id` assigned last. -/
def bundleRecordData (bundle : List PyVal) (tab : Str) : PyVal :=
  let evs := bundle.filter fun e => tabStr e = tab
  .dict ((firstDedup (evs.map typeKeyStr)).map (fun ty =>
      (ty, .list ((evs.filter fun e => typeKeyStr e = ty).map
        fun e => .str (simplifyUrl (urlStr e)))))
    ++ [("tab_id".toList, .str tab)])

/-- Embedding of `NetworkDeduplicator._flush_bundle` (lines 813-835) as a
pure state transformer on `(bundle, timer)`: an empty bundle returns with
no record and no state change; otherwise one `RESOURCE_BUNDLE` record per
tab is emitted, the bundle is cleared and the timer reference dropped. -/
def flushBundle (bundle : List PyVal) (timer : Option Nat) :
    List Rec × List PyVal × Option Nat :=
  if bundle.isEmpty then ([], bundle, timer)
  else
    ((tabsOf bundle).map fun tab => ("RESOURCE_BUNDLE".toList, bundleRecordData bundle tab),
     [], none)

/-- Timed debounce semantics of `_add_to_bundle` / `_bundle_timeout`
(lines 794-811) for the single shared bundle: the deduplicator holds one
timer; each add appends its event and cancels and reschedules that timer
to fire `BUNDLE_WINDOW` after itself.  `bundleFlushesGo W t pending rest`
processes the remaining adds `rest` given the events `pending`
accumulated since the last flush, the latest of which arrived at time `t`;
it returns every (flush time, flushed events) pair.  An add at exactly the
timer's deadline is modelled as cancelling it (the cooperative scheduler
leaves the tie unspecified; no claim or counterexample below depends on
the tie). -/
def bundleFlushesGo (W : Nat) (t : Nat) (pending : List PyVal) :
    List (Nat × PyVal) → List (Nat × List PyVal)
  | [] => [(t + W, pending)]
  | (t2, e) :: rest =>
    if t2 ≤ t + W then bundleFlushesGo W t2 (pending ++ [e]) rest
    else (t + W, pending) :: bundleFlushesGo W t2 [e] rest

/-- All bundle flushes produced by a timed sequence of adds, starting from
an empty bundle with no pending timer. -/
def bundleFlushes (W : Nat) : List (Nat × PyVal) → List (Nat × List PyVal)
  | [] => []
  | (t, e) :: rest => bundleFlushesGo W t [e] rest

/-! ### The logging gate (monitor.py lines 396-403) -/

/-- One record of the output queue: capture timestamp, event type, data. -/
structure CapturedEvent where
  timestamp : Str
  etype : Str
  data : PyVal

/-- Embedding of `EventDrivenMonitor._log_event`: when logging is paused the
queue is untouched and the event dropped; when active, one record stamped
with the capture time is appended. -/
def logEvent (isLogging : Bool) (queue : List CapturedEvent)
    (now : Str) (etype : Str) (data : PyVal) : List CapturedEvent :=
  if isLogging then queue ++ [⟨now, etype, data⟩] else queue

/-! ### The console-API handler (monitor.py lines 111-140) -/

/-- The Python exceptions that can escape or be caught inside
`_handle_console_api`. -/
inductive PyExc where
  | keyError
  | indexError
  | jsonDecodeError
  | attributeError
  | typeError
deriving DecidableEq

/-- `'__UI_SCANNER_DATA__'` (line 124). -/
def scannerDataMark : Str := "__UI_SCANNER_DATA__".toList

/-- `'__UI_SCANNER_TEST__'` (line 119). -/
def scannerTestMark : Str := "__UI_SCANNER_TEST__".toList

/-- Embedding of `PageTracker._handle_console_api` (lines 111-140).
`jsonParse` stands for `json.loads` (`none` = `JSONDecodeError`); `st`/`now`
are the monitor's shared rate-limiter state and the current time; `pageId`
is the tracker's tab id.  The result pairs the rate-limiter state after the
call with either `.error exc` — an exception escaping the handler (the
`except` clause of line 139 catches only `KeyError`, `IndexError` and
`JSONDecodeError`) — or `.ok (some data)` when a `UI_CLICK` is logged, or
`.ok none` when the event is silently dropped.  Python raises `TypeError`
for `in`/`len()` on unsuitable receivers, `AttributeError` for
`.startswith` on a non-string, and `TypeError` for item assignment on a
non-dict parse result. -/
def handleConsoleApi (jsonParse : Str → Option PyVal) (st : ClickState)
    (now : Int) (pageId : Str) (event : PyVal) :
    ClickState × Except PyExc (Option PyVal) :=
  match event with
  | .dict kvs =>
    match lookupStr kvs "args".toList with
    | none => (st, .ok none)
    | some argsVal =>
      match argsVal with
      | .list args =>
        match args with
        | [] => (st, .ok none)
        | firstArg :: _ =>
          match firstArg with
          | .dict fkvs =>
            match lookupStr fkvs "value".toList with
            | none => (st, .ok none)
            | some value =>
              match value with
              | .str s =>
                if s = scannerTestMark then (st, .ok none)
                else if scannerDataMark.isPrefixOf s then
                  let r := clickStep st now
                  if r.1 then
                    match jsonParse (s.drop scannerDataMark.length) with
                    | none => (r.2, .ok none)
                    | some data =>
                      match data with
                      | .dict dkvs =>
                        (r.2, .ok (some (.dict (setKeyPairs dkvs "tab_id".toList (.str pageId)))))
                      | _ => (r.2, .error .typeError)
                  else (r.2, .ok none)
                else (st, .ok none)
              | _ => (st, .error .attributeError)
          | _ => (st, .error .typeError)
      | _ => (st, .error .typeError)
  | _ => (st, .error .typeError)

/-! ### Counting helpers used by the theorem statements -/

/-- Membership of an accepted click in the trailing rate-limit window
ending at time `x`. -/
def inWindowAt (x a : Int) : Bool :=
  decide (x - RATE_LIMIT_WINDOW ≤ a) && decide (a ≤ x)

/-- The number of `NETWORK_REQUEST` records emitted while processing the
events of fingerprint `fp` within `events` (starting from reference table
`refs`). -/
def netReqCountFor (d : PyVal → PyVal → DiffResult) (refs : RefTable)
    (events : List PyVal) (fp : Str) : Nat :=
  ((((processTrace d refs events).1.filter fun pr => eventFp pr.1 = fp).map
      fun pr => pr.2).flatten).countP fun r => r.1 = "NETWORK_REQUEST".toList

/-- Invariant tying the rate-limiter state after some prefix of clicks to
the accepted subsequence `acc` of that prefix; `bound` is the time of the
last processed click (any lower bound of the future works initially). -/
structure ClickInv (s : ClickState) (bound : Int) (acc : List Int) : Prop where
  wSorted : s.window.Sorted (· < ·)
  wMem : ∀ x ∈ s.window, x ∈ acc
  wBound : ∀ x ∈ s.window, x ≤ bound
  accBound : ∀ a ∈ acc, a ≤ bound
  accInWindow : ∀ a ∈ acc, a ∈ s.window ∨ a < bound - RATE_LIMIT_WINDOW
  lastEq : s.last = acc.getLast?
  accSorted : acc.Sorted (· < ·)
  accGap : acc.Chain' fun a b => a + MICRO_DEBOUNCE_WINDOW ≤ b
  accDense : ∀ u ∈ acc, (acc.countP (inWindowAt u)) ≤ RATE_LIMIT_COUNT

/-! ## Theorems -/

/-- The eviction loop only ever removes a prefix of the deque: its result
is a suffix of the input window. -/
theorem evictOld_suffix (t : Int) (w : List Int) : evictOld t w <:+ w := by
  induction w with
  | nil => exact List.suffix_refl _
  | cons x xs ih =>
    rw [evictOld]
    split
    · exact ih.trans (List.suffix_cons x xs)
    · exact List.suffix_refl _

/-- Case equations for the sliding-window part of a click step. -/
theorem clickWindowStep_spec (s : ClickState) (t : Int) :
    (RATE_LIMIT_COUNT ≤ (evictOld t s.window).length →
      clickWindowStep s t = (false, ⟨evictOld t s.window, s.last⟩))
    ∧ (¬ RATE_LIMIT_COUNT ≤ (evictOld t s.window).length →
      clickWindowStep s t = (true, ⟨evictOld t s.window ++ [t], some t⟩)) := by
  constructor <;> intro h <;> simp [clickWindowStep, h]

/-- With no debounce baseline the click goes straight to the window check. -/
theorem clickStep_none (s : ClickState) (t : Int) (h : s.last = none) :
    clickStep s t = clickWindowStep s t := by
  simp [clickStep, h]

/-- A click within the micro-debounce window of the last accepted click is
rejected with no state change. -/
theorem clickStep_debounce (s : ClickState) (t l : Int) (h : s.last = some l)
    (hd : t - l < MICRO_DEBOUNCE_WINDOW) : clickStep s t = (false, s) := by
  simp [clickStep, h, hd]

/-- A click past the micro-debounce window goes to the window check. -/
theorem clickStep_pass (s : ClickState) (t l : Int) (h : s.last = some l)
    (hd : ¬ t - l < MICRO_DEBOUNCE_WINDOW) : clickStep s t = clickWindowStep s t := by
  simp [clickStep, h, hd]

/-- C8: an event submitted to `_log_event` leaves the output queue
completely unchanged when the logging flag is off, and appends exactly one
record — stamped with the capture timestamp, the event type and the data
payload — when it is on. -/
theorem c8_logging_gate (isLogging : Bool) (queue : List CapturedEvent)
    (now etype : Str) (data : PyVal) :
    (isLogging = false → logEvent isLogging queue now etype data = queue)
    ∧ (isLogging = true →
        logEvent isLogging queue now etype data = queue ++ [⟨now, etype, data⟩]
        ∧ (logEvent isLogging queue now etype data).length = queue.length + 1
        ∧ (logEvent isLogging queue now etype data).take queue.length = queue) := by
  refine ⟨fun h => by simp [logEvent, h], fun h => ⟨by simp [logEvent, h], by simp [logEvent, h], ?_⟩⟩
  simp [logEvent, h, List.take_left]

/-- C8 witness at a concrete queue and event. -/
theorem c8_witness :
    logEvent false [⟨"t0".toList, "SESSION_START".toList, .null⟩] "t1".toList "UI_CLICK".toList .null
      = [⟨"t0".toList, "SESSION_START".toList, .null⟩]
    ∧ logEvent true [⟨"t0".toList, "SESSION_START".toList, .null⟩] "t1".toList "UI_CLICK".toList .null
      = [⟨"t0".toList, "SESSION_START".toList, .null⟩,
         ⟨"t1".toList, "UI_CLICK".toList, .null⟩] :=
  ⟨(c8_logging_gate false _ _ _ _).1 rfl,
   ((c8_logging_gate true [⟨"t0".toList, "SESSION_START".toList, .null⟩]
      "t1".toList "UI_CLICK".toList .null).2 rfl).1⟩

/-- C10: a rejected click mutates no rate-limiter state beyond evicting
expired window entries — the last-accepted timestamp is unchanged and the
window gains no entry (it stays the same or becomes its evicted suffix);
an accepted click becomes the new debounce baseline; and a click at least
`MICRO_DEBOUNCE_WINDOW` past the last accepted click is accepted whenever
the evicted window is below the rate-limit count, so rejected rapid clicks
cannot postpone a later acceptance. -/
theorem c10_reject_frame (s : ClickState) (t : Int) :
    ((clickStep s t).1 = false →
        (clickStep s t).2.last = s.last
        ∧ (clickStep s t).2.window.Sublist s.window
        ∧ ((clickStep s t).2.window = s.window
            ∨ (clickStep s t).2.window = evictOld t s.window))
    ∧ ((clickStep s t).1 = true → (clickStep s t).2.last = some t)
    ∧ ((∀ l, s.last = some l → MICRO_DEBOUNCE_WINDOW ≤ t - l) →
        (evictOld t s.window).length < RATE_LIMIT_COUNT →
        (clickStep s t).1 = true) := by
  have hsub : (evictOld t s.window).Sublist s.window := (evictOld_suffix t s.window).sublist
  refine ⟨?_, ?_, ?_⟩
  · intro hrej
    cases hlast : s.last with
    | none =>
      rw [clickStep_none s t hlast] at hrej ⊢
      by_cases hC : RATE_LIMIT_COUNT ≤ (evictOld t s.window).length
      · rw [(clickWindowStep_spec s t).1 hC]
        exact ⟨hlast, hsub, Or.inr rfl⟩
      · rw [(clickWindowStep_spec s t).2 hC] at hrej
        simp at hrej
    | some l =>
      by_cases hD : t - l < MICRO_DEBOUNCE_WINDOW
      · rw [clickStep_debounce s t l hlast hD]
        exact ⟨hlast, List.Sublist.refl _, Or.inl rfl⟩
      · rw [clickStep_pass s t l hlast hD] at hrej ⊢
        by_cases hC : RATE_LIMIT_COUNT ≤ (evictOld t s.window).length
        · rw [(clickWindowStep_spec s t).1 hC]
          exact ⟨hlast, hsub, Or.inr rfl⟩
        · rw [(clickWindowStep_spec s t).2 hC] at hrej
          simp at hrej
  · intro hacc
    have hwin : ∀ _ : clickStep s t = clickWindowStep s t, (clickStep s t).2.last = some t := by
      intro heq
      rw [heq] at hacc ⊢
      by_cases hC : RATE_LIMIT_COUNT ≤ (evictOld t s.window).length
      · rw [(clickWindowStep_spec s t).1 hC] at hacc
        simp at hacc
      · rw [(clickWindowStep_spec s t).2 hC]
    cases hlast : s.last with
    | none => exact hwin (clickStep_none s t hlast)
    | some l =>
      by_cases hD : t - l < MICRO_DEBOUNCE_WINDOW
      · rw [clickStep_debounce s t l hlast hD] at hacc
        simp at hacc
      · exact hwin (clickStep_pass s t l hlast hD)
  · intro hdeb hlen
    have hC : ¬ RATE_LIMIT_COUNT ≤ (evictOld t s.window).length := by omega
    have hwin : (clickWindowStep s t).1 = true := by
      rw [(clickWindowStep_spec s t).2 hC]
    cases hlast : s.last with
    | none => rw [clickStep_none s t hlast]; exact hwin
    | some l =>
      have := hdeb l hlast
      rw [clickStep_pass s t l hlast (by omega)]
      exact hwin

/-- C10 witness: a micro-debounced rejection leaves the state untouched,
and a click 300ms after the last accepted one is accepted when the window
is not full. -/
theorem c10_witness :
    ((clickStep ⟨[0], some 0⟩ 100).2.last = some 0
      ∧ (clickStep ⟨[0], some 0⟩ 100).2.window.Sublist [0]
      ∧ ((clickStep ⟨[0], some 0⟩ 100).2.window = [0]
          ∨ (clickStep ⟨[0], some 0⟩ 100).2.window = evictOld 100 [0]))
    ∧ (clickStep ⟨[0], some 0⟩ 300).1 = true :=
  ⟨(c10_reject_frame ⟨[0], some 0⟩ 100).1 rfl,
   (c10_reject_frame ⟨[0], some 0⟩ 300).2.2
     (fun l hl => by cases hl; decide) (by decide)⟩

/-- First conjunct extraction for `allShortPairs`. -/
theorem allShortPairs_cons {k : Str} {v : PyVal} {rest : List (Str × PyVal)}
    (h : allShortPairs ((k, v) :: rest) = true) :
    allShort v = true ∧ allShortPairs rest = true := by
  rw [allShortPairs, Bool.and_eq_true] at h
  exact h

/-- First conjunct extraction for `allShortList`. -/
theorem allShortList_cons {v : PyVal} {rest : List PyVal}
    (h : allShortList (v :: rest) = true) :
    allShort v = true ∧ allShortList rest = true := by
  rw [allShortList, Bool.and_eq_true] at h
  exact h

mutual

/-- Truncation is idempotent on values all of whose nested strings fit in
`MAX_VALUE_LENGTH`. -/
theorem truncIdemAux : ∀ v, allShort v = true →
    truncateValue (truncateValue v) = truncateValue v
  | .str s, h => by
    have hs : ¬ MAX_VALUE_LENGTH < s.length := by
      rw [allShort, decide_eq_true_eq] at h
      omega
    rw [truncateValue, if_neg hs, truncateValue, if_neg hs]
  | .int _, _ => rfl
  | .bool _, _ => rfl
  | .null, _ => rfl
  | .dict kvs, h => by
    rw [allShort] at h
    rw [truncateValue, truncateValue, truncPairsIdemAux 5 kvs h]
  | .list xs, h => by
    rw [allShort] at h
    rw [truncateValue, truncateValue, truncListIdemAux 5 xs h]

/-- List-of-pairs version of the idempotence argument. -/
theorem truncPairsIdemAux : ∀ (n : Nat) (l : List (Str × PyVal)),
    allShortPairs l = true → truncatePairs n (truncatePairs n l) = truncatePairs n l
  | 0, l, _ => by cases l <;> rfl
  | _ + 1, [], _ => rfl
  | n + 1, (k, v) :: rest, h => by
    obtain ⟨hv, hrest⟩ := allShortPairs_cons h
    rw [truncatePairs, truncatePairs, truncIdemAux v hv, truncPairsIdemAux n rest hrest]

/-- List version of the idempotence argument. -/
theorem truncListIdemAux : ∀ (n : Nat) (l : List PyVal),
    allShortList l = true → truncateList n (truncateList n l) = truncateList n l
  | 0, l, _ => by cases l <;> rfl
  | _ + 1, [], _ => rfl
  | n + 1, v :: rest, h => by
    obtain ⟨hv, hrest⟩ := allShortList_cons h
    rw [truncateList, truncateList, truncIdemAux v hv, truncListIdemAux n rest hrest]

end

set_option maxRecDepth 8000 in
/-- C3 counterexample: truncation is NOT idempotent on every value.  For a
string of 129 `a`s, the first truncation appends the annotation
`... (129 chars)`, producing a 143-character string; truncating that result
again re-cuts it and annotates the new length 143, yielding a different
string. -/
theorem c3_counterexample :
    truncateValue (truncateValue (.str (List.replicate 129 'a'))) ≠
      truncateValue (.str (List.replicate 129 'a')) := by
  intro h
  have h1 : truncateValue (.str (List.replicate 129 'a'))
      = .str (List.replicate 128 'a' ++ "... (129 chars)".toList) := rfl
  have h2 : truncateValue (.str (List.replicate 128 'a' ++ "... (129 chars)".toList))
      = .str (List.replicate 128 'a' ++ "... (143 chars)".toList) := rfl
  rw [h1, h2] at h
  exact absurd (PyVal.str.inj h) (by decide)

/-- C3 (amended): truncation is idempotent on every value none of whose
nested strings exceeds `MAX_VALUE_LENGTH` (in particular on all dict/list
nesting and non-string scalars); for a string longer than
`MAX_VALUE_LENGTH` the length annotation changes on re-truncation, so
idempotence fails there (see the counterexample). -/
theorem c3_truncate_idem (v : PyVal) (h : allShort v = true) :
    truncateValue (truncateValue v) = truncateValue v :=
  truncIdemAux v h

/-- C3 witness: a 6-entry dict of short strings (capped to 5 entries by the
first truncation, unchanged by the second). -/
theorem c3_witness :
    allShort (.dict [("a".toList, .str "v1".toList), ("b".toList, .str "v2".toList),
      ("c".toList, .str "v3".toList), ("d".toList, .str "v4".toList),
      ("e".toList, .str "v5".toList), ("f".toList, .str "v6".toList)]) = true
    ∧ truncateValue (truncateValue (.dict [("a".toList, .str "v1".toList),
        ("b".toList, .str "v2".toList), ("c".toList, .str "v3".toList),
        ("d".toList, .str "v4".toList), ("e".toList, .str "v5".toList),
        ("f".toList, .str "v6".toList)]))
      = truncateValue (.dict [("a".toList, .str "v1".toList),
        ("b".toList, .str "v2".toList), ("c".toList, .str "v3".toList),
        ("d".toList, .str "v4".toList), ("e".toList, .str "v5".toList),
        ("f".toList, .str "v6".toList)]) :=
  ⟨by decide, c3_truncate_idem _ (by decide)⟩

/-- C9: the handler's `except` clause (monitor.py line 139) catches only
`KeyError`, `IndexError` and `JSONDecodeError`, so a console event whose
first argument carries a non-string `value` — e.g. the CDP event for
`console.log(42)`, `{args: [{value: 42}]}` — reaches
`value.startswith(...)` (line 124) and raises an uncaught `AttributeError`
that propagates to the caller instead of being silently discarded. -/
theorem c9_nonstring_value_raises :
    handleConsoleApi (fun _ => none) initClickState 0 "main".toList
      (.dict [("args".toList, .list [.dict [("value".toList, .int 42)]])])
      = (initClickState, .error .attributeError) := rfl

/-- Flattening the flushed groups recovers the added events in order. -/
theorem bundleFlushesGo_flatten (W : Nat) :
    ∀ (rest : List (Nat × PyVal)) (t : Nat) (pending : List PyVal),
    ((bundleFlushesGo W t pending rest).map Prod.snd).flatten = pending ++ rest.map Prod.snd
  | [], t, pending => by simp [bundleFlushesGo]
  | (t2, e) :: rest, t, pending => by
    rw [bundleFlushesGo]
    split
    · rw [bundleFlushesGo_flatten W rest t2 (pending ++ [e])]
      simp
    · simp [bundleFlushesGo_flatten W rest t2 [e]]

/-- Every flushed group is nonempty when the running bundle is. -/
theorem bundleFlushesGo_ne (W : Nat) :
    ∀ (rest : List (Nat × PyVal)) (t : Nat) (pending : List PyVal), pending ≠ [] →
    ∀ fl ∈ bundleFlushesGo W t pending rest, fl.2 ≠ []
  | [], t, pending, hp => by
    intro fl hfl
    rw [bundleFlushesGo] at hfl
    simp only [List.mem_singleton] at hfl
    subst hfl
    exact hp
  | (t2, e) :: rest, t, pending, hp => by
    intro fl hfl
    rw [bundleFlushesGo] at hfl
    split at hfl
    · exact bundleFlushesGo_ne W rest t2 (pending ++ [e]) (by simp) fl hfl
    · rcases List.mem_cons.mp hfl with h | h
      · subst h; exact hp
      · exact bundleFlushesGo_ne W rest t2 [e] (by simp) fl h

/-- Each flush happens at least `W` after the latest pending add and is
separated from every remaining add by the debounce window. -/
theorem bundleFlushesGo_quiet (W : Nat) :
    ∀ (rest : List (Nat × PyVal)) (t : Nat) (pending : List PyVal),
    (rest.map Prod.fst).Chain' (· < ·) → (∀ a ∈ rest, t < a.1) →
    ∀ fl ∈ bundleFlushesGo W t pending rest,
      t + W ≤ fl.1 ∧ ∀ a ∈ rest, a.1 + W ≤ fl.1 ∨ fl.1 < a.1
  | [], t, pending, _, _ => by
    intro fl hfl
    rw [bundleFlushesGo] at hfl
    simp only [List.mem_singleton] at hfl
    subst hfl
    exact ⟨le_refl _, by simp⟩
  | (t2, e) :: rest, t, pending, hchain, hgt => by
    intro fl hfl
    rw [List.map_cons] at hchain
    have ht2 : t < t2 := hgt (t2, e) (List.mem_cons_self _ _)
    have hchain2 : (rest.map Prod.fst).Chain' (· < ·) := hchain.tail
    have hrest_gt : ∀ a ∈ rest, t2 < a.1 := by
      intro a ha
      have hpw := List.chain'_iff_pairwise.mp hchain
      exact List.rel_of_pairwise_cons hpw (List.mem_map_of_mem Prod.fst ha)
    rw [bundleFlushesGo] at hfl
    split at hfl
    · rename_i hle
      obtain ⟨h1, h2⟩ := bundleFlushesGo_quiet W rest t2 (pending ++ [e]) hchain2 hrest_gt fl hfl
      refine ⟨by omega, ?_⟩
      intro a ha
      rcases List.mem_cons.mp ha with h | h
      · subst h; exact Or.inl h1
      · exact h2 a h
    · rename_i hgt2
      rcases List.mem_cons.mp hfl with h | h
      · subst h
        refine ⟨le_refl _, ?_⟩
        intro a ha
        rcases List.mem_cons.mp ha with h | h
        · subst h; exact Or.inr (by omega)
        · exact Or.inr (by have := hrest_gt a h; omega)
      · obtain ⟨h1, h2⟩ := bundleFlushesGo_quiet W rest t2 [e] hchain2 hrest_gt fl h
        refine ⟨by omega, ?_⟩
        intro a ha
        rcases List.mem_cons.mp ha with h | h
        · subst h; exact Or.inl h1
        · exact h2 a h

/-- C4 counterexample: the deduplicator holds one shared bundle and one
shared flush timer, not one per session.  With `BUNDLE_WINDOW = 1000`, a
lone add for session A at time 0 flushes at time 1000; inserting an add
for session B at time 500 cancels A's pending flush and both flush
together at 1500 — so an addition to B's bundle delays and cancels A's
pending flush, refuting the claim. -/
theorem c4_counterexample :
    bundleFlushes BUNDLE_WINDOW
        [(0, .dict [("tab_id".toList, PyVal.str "A".toList),
                    ("type".toList, PyVal.str "Stylesheet".toList),
                    ("request".toList, .dict [("url".toList, PyVal.str "https://a.test/s.css".toList)])])]
      = [(1000, [.dict [("tab_id".toList, PyVal.str "A".toList),
                    ("type".toList, PyVal.str "Stylesheet".toList),
                    ("request".toList, .dict [("url".toList, PyVal.str "https://a.test/s.css".toList)])]])]
    ∧ bundleFlushes BUNDLE_WINDOW
        [(0, .dict [("tab_id".toList, PyVal.str "A".toList),
                    ("type".toList, PyVal.str "Stylesheet".toList),
                    ("request".toList, .dict [("url".toList, PyVal.str "https://a.test/s.css".toList)])]),
         (500, .dict [("tab_id".toList, PyVal.str "B".toList),
                    ("type".toList, PyVal.str "Script".toList),
                    ("request".toList, .dict [("url".toList, PyVal.str "https://b.test/s.js".toList)])])]
      = [(1500, [.dict [("tab_id".toList, PyVal.str "A".toList),
                    ("type".toList, PyVal.str "Stylesheet".toList),
                    ("request".toList, .dict [("url".toList, PyVal.str "https://a.test/s.css".toList)])],
                 .dict [("tab_id".toList, PyVal.str "B".toList),
                    ("type".toList, PyVal.str "Script".toList),
                    ("request".toList, .dict [("url".toList, PyVal.str "https://b.test/s.js".toList)])]])]
    ∧ (1500 : Nat) ≠ 1000 :=
  ⟨rfl, rfl, by decide⟩

/-- C4 (amended): the resource bundle is a single structure shared by all
sessions with a single pending flush timer: every addition — for any
session — cancels and reschedules the one pending flush, so for strictly
increasing add times the bundle flushes exactly `BUNDLE_WINDOW` after the
last add of a burst, no add (of any session) lies in the half-open window
`(flush − BUNDLE_WINDOW, flush]`, every flushed group is nonempty, and no
event is lost or duplicated across flushes.  Per-session grouping happens
only inside `_flush_bundle`, at flush time. -/
theorem c4_global_debounce (W : Nat) (adds : List (Nat × PyVal))
    (hs : (adds.map Prod.fst).Chain' (· < ·)) :
    ((bundleFlushes W adds).map Prod.snd).flatten = adds.map Prod.snd
    ∧ (∀ fl ∈ bundleFlushes W adds, fl.2 ≠ [])
    ∧ (∀ fl ∈ bundleFlushes W adds, ∀ a ∈ adds, a.1 + W ≤ fl.1 ∨ fl.1 < a.1) := by
  cases adds with
  | nil => exact ⟨rfl, by simp [bundleFlushes], by simp [bundleFlushes]⟩
  | cons hd rest =>
    obtain ⟨t, e⟩ := hd
    rw [List.map_cons] at hs
    have hgt : ∀ a ∈ rest, t < a.1 := by
      intro a ha
      exact List.rel_of_pairwise_cons (List.chain'_iff_pairwise.mp hs)
        (List.mem_map_of_mem Prod.fst ha)
    refine ⟨?_, ?_, ?_⟩
    · rw [bundleFlushes, bundleFlushesGo_flatten W rest t [e]]
      simp
    · exact fun fl hfl => bundleFlushesGo_ne W rest t [e] (by simp) fl hfl
    · intro fl hfl a ha
      obtain ⟨h1, h2⟩ := bundleFlushesGo_quiet W rest t [e] hs.tail hgt fl hfl
      rcases List.mem_cons.mp ha with h | h
      · subst h; exact Or.inl h1
      · exact h2 a h

/-- C4 witness: two adds 1500 apart flush separately, each exactly
`BUNDLE_WINDOW` after its add. -/
theorem c4_witness :
    ([(0 : Nat), 1500].Chain' (· < ·))
    ∧ ((bundleFlushes 1000 [(0, PyVal.null), (1500, PyVal.null)]).map Prod.snd).flatten
        = [PyVal.null, PyVal.null]
    ∧ (∀ fl ∈ bundleFlushes 1000 [(0, PyVal.null), (1500, PyVal.null)], fl.2 ≠ [])
    ∧ (∀ fl ∈ bundleFlushes 1000 [(0, PyVal.null), (1500, PyVal.null)],
        ∀ a ∈ [((0 : Nat), PyVal.null), (1500, PyVal.null)], a.1 + 1000 ≤ fl.1 ∨ fl.1 < a.1) := by
  have h := c4_global_debounce 1000 [(0, PyVal.null), (1500, PyVal.null)]
    (by simp [List.chain'_cons])
  exact ⟨by simp [List.chain'_cons], h.1, h.2.1, h.2.2⟩

/-- C6: the `NETWORK_DIFF` change map is built exclusively from the
`values_changed` part of the structural diff: every entry's path comes from
`values_changed` and survives the deny-list, every surviving
`values_changed` entry appears (with its new value truncated), and the
added/removed parts of the diff — fields only added or removed — never
influence the change map at all. -/
theorem c6_change_filter (d : DiffResult) :
    (∀ p ∈ (computeChanges d).map Prod.fst,
        p ∈ d.valuesChanged.map Prod.fst ∧ shouldSkipPath p = false)
    ∧ (∀ pc ∈ d.valuesChanged, shouldSkipPath pc.1 = false →
        (pc.1, truncateValue (newValOf pc.2)) ∈ computeChanges d)
    ∧ computeChanges d = computeChanges ⟨d.valuesChanged, [], []⟩ := by
  refine ⟨?_, ?_, rfl⟩
  · intro p hp
    rw [List.mem_map] at hp
    obtain ⟨r, hr, hpr⟩ := hp
    rw [computeChanges, List.mem_filterMap] at hr
    obtain ⟨pc, hpc, hf⟩ := hr
    by_cases hskip : shouldSkipPath pc.1 = true
    · simp [hskip] at hf
    · rw [if_neg (by simpa using hskip)] at hf
      have hr2 : r = (pc.1, truncateValue (newValOf pc.2)) := (Option.some.inj hf).symm
      have hpeq : p = pc.1 := by rw [← hpr, hr2]
      rw [hpeq]
      exact ⟨List.mem_map_of_mem Prod.fst hpc, by simpa using hskip⟩
  · intro pc hpc hskip
    rw [computeChanges, List.mem_filterMap]
    exact ⟨pc, hpc, by simp [hskip]⟩

/-- C6 witness: a deny-listed `timestamp` path is dropped while a header
change survives, independently of an added item. -/
theorem c6_witness :
    shouldSkipPath "root[request][headers][Content-Type]".toList = false
    ∧ ("root[request][headers][Content-Type]".toList,
        truncateValue (newValOf (.str "text/html".toList))) ∈
        computeChanges ⟨[("root[request][headers][Content-Type]".toList, .str "text/html".toList),
                         ("root[wallTime]".toList, .int 5)],
                        ["root[extra]".toList], []⟩ :=
  ⟨by decide,
   (c6_change_filter ⟨[("root[request][headers][Content-Type]".toList, .str "text/html".toList),
                       ("root[wallTime]".toList, .int 5)],
                      ["root[extra]".toList], []⟩).2.1
     _ (List.mem_cons_self _ _) (by decide)⟩

/-- `splitFirst` passes over a stop-free prefix. -/
theorem splitFirst_append_of_no_stop (stops : List Char) :
    ∀ (l1 l2 : Str), (∀ c ∈ l1, c ∉ stops) →
    splitFirst stops (l1 ++ l2)
      = (l1 ++ (splitFirst stops l2).1, (splitFirst stops l2).2)
  | [], l2, _ => by simp
  | c :: cs, l2, h => by
    have hc : c ∉ stops := h c (List.mem_cons_self _ _)
    rw [List.cons_append]
    simp only [splitFirst, if_neg hc]
    rw [splitFirst_append_of_no_stop stops cs l2 fun x hx => h x (List.mem_cons_of_mem _ hx)]
    simp

/-- `splitFirst` stops at a leading stop character. -/
theorem splitFirst_cons_stop (stops : List Char) (c : Char) (l : Str) (h : c ∈ stops) :
    splitFirst stops (c :: l) = ([], c :: l) := by
  simp [splitFirst, h]

/-- `urlparse` recovers the five components of a well-formed absolute URL
with a query string and a fragment. -/
theorem urlparse_canonical (scheme netloc path q f : Str)
    (hs : ∀ c ∈ scheme, c ≠ ':' ∧ c ≠ '#')
    (hn : ∀ c ∈ netloc, c ≠ '/' ∧ c ≠ '?' ∧ c ≠ '#')
    (hp : ∀ c ∈ path, c ≠ '?' ∧ c ≠ '#')
    (hp0 : path = [] ∨ ∃ rest, path = '/' :: rest)
    (hq : ∀ c ∈ q, c ≠ '#') :
    urlparse (scheme ++ "://".toList ++ netloc ++ path ++ "?".toList ++ q ++ "#".toList ++ f)
      = ⟨scheme, netloc, path, q, f⟩ := by
  have h1 : splitFirst ['#'] (scheme ++ "://".toList ++ netloc ++ path ++ "?".toList ++ q ++ "#".toList ++ f)
      = (scheme ++ "://".toList ++ netloc ++ path ++ "?".toList ++ q, '#' :: f) := by
    have e1 : scheme ++ "://".toList ++ netloc ++ path ++ "?".toList ++ q ++ "#".toList ++ f
        = (scheme ++ "://".toList ++ netloc ++ path ++ "?".toList ++ q) ++ ('#' :: f) := by
      simp [List.append_assoc]
    rw [e1, splitFirst_append_of_no_stop _ _ _ ?side, splitFirst_cons_stop _ _ _ (by decide)]
    · simp
    case side =>
      intro c hc hmem
      simp only [List.mem_singleton] at hmem
      subst hmem
      simp only [List.append_assoc, List.mem_append] at hc
      rcases hc with hc | hc | hc | hc | hc | hc
      · exact (hs _ hc).2 rfl
      · exact absurd hc (by decide)
      · exact (hn _ hc).2.2 rfl
      · exact (hp _ hc).2 rfl
      · exact absurd hc (by decide)
      · exact hq _ hc rfl
  have h2 : splitFirst [':'] (scheme ++ "://".toList ++ netloc ++ path ++ "?".toList ++ q)
      = (scheme, ':' :: ('/' :: '/' :: (netloc ++ path ++ "?".toList ++ q))) := by
    have e2 : scheme ++ "://".toList ++ netloc ++ path ++ "?".toList ++ q
        = scheme ++ (':' :: '/' :: '/' :: (netloc ++ path ++ "?".toList ++ q)) := by
      simp [List.append_assoc]
    rw [e2, splitFirst_append_of_no_stop _ _ _ ?side2, splitFirst_cons_stop _ _ _ (by decide)]
    · simp
    case side2 =>
      intro c hc hmem
      simp only [List.mem_singleton] at hmem
      subst hmem
      exact (hs _ hc).1 rfl
  have h3 : splitFirst ['/', '?'] (netloc ++ (path ++ '?' :: q))
      = (netloc, path ++ '?' :: q) := by
    have hl2 : splitFirst ['/', '?'] (path ++ '?' :: q) = ([], path ++ '?' :: q) := by
      rcases hp0 with hnil | ⟨rest, hcons⟩
      · subst hnil
        simp only [List.nil_append]
        exact splitFirst_cons_stop _ _ _ (by decide)
      · subst hcons
        rw [show ('/' :: rest) ++ '?' :: q = '/' :: (rest ++ '?' :: q) by simp,
          splitFirst_cons_stop _ _ _ (by decide)]
    rw [splitFirst_append_of_no_stop _ _ _ ?side3, hl2]
    · simp
    case side3 =>
      intro c hc hmem
      simp only [List.mem_cons, List.not_mem_nil, or_false] at hmem
      rcases hmem with rfl | rfl
      · exact (hn _ hc).1 rfl
      · exact (hn _ hc).2.1 rfl
  have h4 : splitFirst ['?'] (path ++ '?' :: q) = (path, '?' :: q) := by
    rw [splitFirst_append_of_no_stop _ _ _ ?side4, splitFirst_cons_stop _ _ _ (by decide)]
    · simp
    case side4 =>
      intro c hc hmem
      simp only [List.mem_singleton] at hmem
      subst hmem
      exact (hp _ hc).1 rfl
  simp only [urlparse, h1, h2]
  simp [h3, h4]

/-- C7: the fingerprint is a pure total function of (session id, method,
URL) with value `session_id :: method :: scheme://host/path` — for a
well-formed absolute URL the query string and the fragment are excluded,
so two URLs differing only in query or fragment always produce the same
fingerprint, and the computation has no error conditions (it is a total
Lean function). -/
theorem c7_fingerprint (tab method scheme netloc path q f : Str)
    (hs : ∀ c ∈ scheme, c ≠ ':' ∧ c ≠ '#')
    (hn : ∀ c ∈ netloc, c ≠ '/' ∧ c ≠ '?' ∧ c ≠ '#')
    (hp : ∀ c ∈ path, c ≠ '?' ∧ c ≠ '#')
    (hp0 : path = [] ∨ ∃ rest, path = '/' :: rest)
    (hq : ∀ c ∈ q, c ≠ '#') :
    fingerprint tab method
        (scheme ++ "://".toList ++ netloc ++ path ++ "?".toList ++ q ++ "#".toList ++ f)
      = tab ++ "::".toList ++ method ++ "::".toList
          ++ scheme ++ "://".toList ++ netloc ++ path
    ∧ ∀ q2 f2 : Str, (∀ c ∈ q2, c ≠ '#') →
        fingerprint tab method
            (scheme ++ "://".toList ++ netloc ++ path ++ "?".toList ++ q2 ++ "#".toList ++ f2)
          = fingerprint tab method
              (scheme ++ "://".toList ++ netloc ++ path ++ "?".toList ++ q ++ "#".toList ++ f) := by
  have key : ∀ q0 f0 : Str, (∀ c ∈ q0, c ≠ '#') →
      fingerprint tab method
          (scheme ++ "://".toList ++ netloc ++ path ++ "?".toList ++ q0 ++ "#".toList ++ f0)
        = tab ++ "::".toList ++ method ++ "::".toList
            ++ scheme ++ "://".toList ++ netloc ++ path := by
    intro q0 f0 hq0
    rw [fingerprint, urlparse_canonical scheme netloc path q0 f0 hs hn hp hp0 hq0]
  exact ⟨key q f hq, fun q2 f2 hq2 => by rw [key q2 f2 hq2, key q f hq]⟩

/-- C7 witness: the fingerprint of a concrete request, and independence
from a changed query string and fragment. -/
theorem c7_witness :
    fingerprint "main".toList "GET".toList "https://x.test/api?foo=1#frag".toList
      = "main::GET::https://x.test/api".toList
    ∧ fingerprint "main".toList "GET".toList "https://x.test/api?foo=2#z".toList
      = fingerprint "main".toList "GET".toList "https://x.test/api?foo=1#frag".toList := by
  have h := c7_fingerprint "main".toList "GET".toList "https".toList "x.test".toList
    "/api".toList "foo=1".toList "frag".toList
    (by decide) (by decide) (by decide) (Or.inr ⟨"api".toList, rfl⟩) (by decide)
  exact ⟨h.1, h.2 "foo=2".toList "z".toList (by decide)⟩

/-- `firstDedup` preserves membership. -/
theorem mem_firstDedup : ∀ (l : List Str) (x : Str), x ∈ firstDedup l ↔ x ∈ l
  | [], x => by simp [firstDedup]
  | y :: ys, x => by
    rw [firstDedup]
    constructor
    · intro h
      rcases List.mem_cons.mp h with rfl | h2
      · exact List.mem_cons_self _ _
      · exact List.mem_cons_of_mem _
          (List.mem_of_mem_filter ((mem_firstDedup (ys.filter fun z => z ≠ y) x).mp h2))
    · intro h
      rcases List.mem_cons.mp h with rfl | h2
      · exact List.mem_cons_self _ _
      · by_cases hxy : x = y
        · subst hxy; exact List.mem_cons_self _ _
        · exact List.mem_cons_of_mem _
            ((mem_firstDedup _ x).mpr (List.mem_filter.mpr ⟨h2, by simp [hxy]⟩))
termination_by l => l.length
decreasing_by
  all_goals simp only [List.length_cons]
  all_goals exact Nat.lt_succ_of_le (List.length_filter_le _ _)

/-- `firstDedup` yields distinct entries. -/
theorem firstDedup_nodup : ∀ l : List Str, (firstDedup l).Nodup
  | [] => by simp [firstDedup]
  | y :: ys => by
    rw [firstDedup]
    refine List.nodup_cons.mpr ⟨?_, firstDedup_nodup _⟩
    intro hy
    have h2 := List.mem_filter.mp ((mem_firstDedup _ y).mp hy)
    simp at h2
termination_by l => l.length
decreasing_by
  simp only [List.length_cons]
  exact Nat.lt_succ_of_le (List.length_filter_le _ _)

/-- Lookup skips a prefix whose keys all differ from the query key. -/
theorem lookupStr_append_right :
    ∀ (l1 l2 : List (Str × PyVal)) (k : Str), (∀ p ∈ l1, p.1 ≠ k) →
    lookupStr (l1 ++ l2) k = lookupStr l2 k
  | [], _, _, _ => rfl
  | (k0, v0) :: rest, l2, k, h => by
    rw [List.cons_append, lookupStr, if_neg (h (k0, v0) (List.mem_cons_self _ _)),
      lookupStr_append_right rest l2 k fun p hp => h p (List.mem_cons_of_mem _ hp)]

/-- Lookup found in a prefix is unaffected by a suffix. -/
theorem lookupStr_append_left :
    ∀ (l1 l2 : List (Str × PyVal)) (k : Str) (v : PyVal), lookupStr l1 k = some v →
    lookupStr (l1 ++ l2) k = some v
  | [], _, _, _, h => by simp [lookupStr] at h
  | (k0, v0) :: rest, l2, k, v, h => by
    rw [lookupStr] at h
    rw [List.cons_append, lookupStr]
    by_cases hk : k0 = k
    · rwa [if_pos hk] at h ⊢
    · rw [if_neg hk] at h ⊢
      exact lookupStr_append_left rest l2 k v h

/-- Lookup in an association list tabulating `f` over keys. -/
theorem lookupStr_map_self :
    ∀ (l : List Str) (f : Str → PyVal) (k : Str), k ∈ l →
    lookupStr (l.map fun ty => (ty, f ty)) k = some (f k)
  | [], _, _, h => absurd h (List.not_mem_nil _)
  | y :: ys, f, k, h => by
    rw [List.map_cons, lookupStr]
    by_cases hky : y = k
    · subst hky; simp
    · rw [if_neg hky]
      refine lookupStr_map_self ys f k ?_
      rcases List.mem_cons.mp h with rfl | h2
      · exact absurd rfl hky
      · exact h2

/-- A pluralized type key (ending in `s`) is never the `tab_id` key. -/
theorem typeKey_ne_tabId (base : Str) : base ++ "s".toList ≠ "tab_id".toList := by
  intro h
  have h2 := congrArg List.getLast? h
  rw [show ("s".toList : Str) = ['s'] from rfl, List.getLast?_concat] at h2
  simp at h2

/-- The `tab_id` entry of a per-tab bundle record is the tab it was built
for (the pluralized type keys cannot collide with it). -/
theorem bundleRecordData_tab (bundle : List PyVal) (tab : Str) :
    (bundleRecordData bundle tab).get "tab_id".toList = some (.str tab) := by
  rw [bundleRecordData]
  simp only [PyVal.get]
  rw [lookupStr_append_right _ _ _ ?keys]
  · simp [lookupStr]
  case keys =>
    intro p hp
    rw [List.mem_map] at hp
    obtain ⟨ty, hty, rfl⟩ := hp
    have h1 := (mem_firstDedup _ ty).mp hty
    rw [List.mem_map] at h1
    obtain ⟨e, _, rfl⟩ := h1
    exact typeKey_ne_tabId _

/-- C5: flushing emits exactly one `RESOURCE_BUNDLE` record per session
that has accumulated events — the emitted records' tab ids are exactly the
distinct tab ids of the bundle, each once — every record carries the
pluralized type → simplified-URL-list mapping (every accumulated event's
simplified URL appears under its type key in its session's record), the
whole bundle is then cleared and the timer reference dropped as one atomic
step, and flushing an empty bundle emits nothing and changes no state. -/
theorem c5_flush_bundle (bundle : List PyVal) (tm : Option Nat) :
    flushBundle [] tm = ([], [], tm)
    ∧ (bundle ≠ [] →
        (flushBundle bundle tm).2.1 = [] ∧ (flushBundle bundle tm).2.2 = none)
    ∧ (∀ r ∈ (flushBundle bundle tm).1, r.1 = "RESOURCE_BUNDLE".toList)
    ∧ ((flushBundle bundle tm).1.map fun r => asStr (r.2.get "tab_id".toList))
        = tabsOf bundle
    ∧ (tabsOf bundle).Nodup
    ∧ (∀ tab : Str, tab ∈ tabsOf bundle ↔ ∃ e ∈ bundle, tabStr e = tab)
    ∧ (∀ e ∈ bundle, ∃ r ∈ (flushBundle bundle tm).1,
        asStr (r.2.get "tab_id".toList) = tabStr e
        ∧ PyVal.str (simplifyUrl (urlStr e)) ∈ asList (r.2.get (typeKeyStr e))) := by
  have hrec : (flushBundle bundle tm).1
      = (tabsOf bundle).map fun tab => ("RESOURCE_BUNDLE".toList, bundleRecordData bundle tab) := by
    cases bundle with
    | nil => simp [flushBundle, tabsOf, firstDedup]
    | cons e es => simp [flushBundle]
  refine ⟨rfl, ?_, ?_, ?_, firstDedup_nodup _, ?_, ?_⟩
  · intro hne
    cases bundle with
    | nil => exact absurd rfl hne
    | cons e es => exact ⟨by simp [flushBundle], by simp [flushBundle]⟩
  · intro r hr
    rw [hrec, List.mem_map] at hr
    obtain ⟨tab, _, rfl⟩ := hr
    rfl
  · rw [hrec, List.map_map]
    refine List.map_congr_left ?_ |>.trans (List.map_id _)
    intro tab _
    show asStr ((bundleRecordData bundle tab).get "tab_id".toList) = tab
    rw [bundleRecordData_tab]
    rfl
  · intro tab
    rw [tabsOf, mem_firstDedup]
    exact List.mem_map
  · intro e he
    refine ⟨("RESOURCE_BUNDLE".toList, bundleRecordData bundle (tabStr e)), ?_, ?_, ?_⟩
    · rw [hrec]
      exact List.mem_map_of_mem _ ((mem_firstDedup _ _).mpr (List.mem_map_of_mem tabStr he))
    · rw [bundleRecordData_tab]
      rfl
    · have hev : e ∈ bundle.filter fun x => tabStr x = tabStr e :=
        List.mem_filter.mpr ⟨he, by simp⟩
      rw [bundleRecordData]
      simp only [PyVal.get]
      rw [lookupStr_append_left _ _ _ _
        (lookupStr_map_self _ _ _ ((mem_firstDedup _ _).mpr (List.mem_map_of_mem typeKeyStr hev)))]
      simp only [asList]
      exact List.mem_map_of_mem _ (List.mem_filter.mpr ⟨hev, by simp⟩)

/-- C5 witness: a two-session bundle flushes to one record per session,
each event's simplified URL listed under its pluralized type key, and the
bundle is cleared. -/
theorem c5_witness :
    ((flushBundle
        [.dict [("tab_id".toList, PyVal.str "tab-0".toList),
                ("type".toList, PyVal.str "Stylesheet".toList),
                ("request".toList, .dict [("url".toList, PyVal.str "https://x.test/a.css".toList)])],
         .dict [("tab_id".toList, PyVal.str "tab-1".toList),
                ("type".toList, PyVal.str "Script".toList),
                ("request".toList, .dict [("url".toList, PyVal.str "https://x.test/b.js".toList)])]]
        (some 7)).2.1 = []
      ∧ (flushBundle
        [.dict [("tab_id".toList, PyVal.str "tab-0".toList),
                ("type".toList, PyVal.str "Stylesheet".toList),
                ("request".toList, .dict [("url".toList, PyVal.str "https://x.test/a.css".toList)])],
         .dict [("tab_id".toList, PyVal.str "tab-1".toList),
                ("type".toList, PyVal.str "Script".toList),
                ("request".toList, .dict [("url".toList, PyVal.str "https://x.test/b.js".toList)])]]
        (some 7)).2.2 = none)
    ∧ ((flushBundle
        [.dict [("tab_id".toList, PyVal.str "tab-0".toList),
                ("type".toList, PyVal.str "Stylesheet".toList),
                ("request".toList, .dict [("url".toList, PyVal.str "https://x.test/a.css".toList)])],
         .dict [("tab_id".toList, PyVal.str "tab-1".toList),
                ("type".toList, PyVal.str "Script".toList),
                ("request".toList, .dict [("url".toList, PyVal.str "https://x.test/b.js".toList)])]]
        (some 7)).1.map fun r => asStr (r.2.get "tab_id".toList))
      = ["tab-0".toList, "tab-1".toList] := by
  have h := c5_flush_bundle
    [.dict [("tab_id".toList, PyVal.str "tab-0".toList),
            ("type".toList, PyVal.str "Stylesheet".toList),
            ("request".toList, .dict [("url".toList, PyVal.str "https://x.test/a.css".toList)])],
     .dict [("tab_id".toList, PyVal.str "tab-1".toList),
            ("type".toList, PyVal.str "Script".toList),
            ("request".toList, .dict [("url".toList, PyVal.str "https://x.test/b.js".toList)])]]
    (some 7)
  refine ⟨h.2.1 (by simp), h.2.2.2.1.trans ?_⟩
  simp [tabsOf, tabStr, asStrD, PyVal.get, lookupStr, firstDedup]

/-- Characterization of eviction on a sorted window: exactly the expired
entries are dropped. -/
theorem mem_evictOld (t : Int) :
    ∀ (w : List Int), w.Sorted (· < ·) →
    ∀ a, (a ∈ evictOld t w ↔ a ∈ w ∧ t - RATE_LIMIT_WINDOW ≤ a)
  | [], _, a => by simp [evictOld]
  | x :: xs, hs, a => by
    rw [evictOld]
    by_cases hx : x < t - RATE_LIMIT_WINDOW
    · rw [if_pos hx, mem_evictOld t xs hs.of_cons a]
      constructor
      · rintro ⟨h1, h2⟩
        exact ⟨List.mem_cons_of_mem _ h1, h2⟩
      · rintro ⟨h1, h2⟩
        rcases List.mem_cons.mp h1 with rfl | h3
        · omega
        · exact ⟨h3, h2⟩
    · rw [if_neg hx]
      constructor
      · intro h1
        refine ⟨h1, ?_⟩
        rcases List.mem_cons.mp h1 with rfl | h3
        · omega
        · have := List.rel_of_sorted_cons hs a h3
          omega
      · rintro ⟨h1, _⟩
        exact h1

/-- The invariant holds initially (for any bound). -/
theorem clickInv_init (b : Int) : ClickInv initClickState b [] :=
  ⟨by simp [initClickState], by simp [initClickState], by simp [initClickState],
   by simp, by simp, rfl, by simp, by simp, by simp⟩

/-- The invariant is preserved by one click at a later time. -/
theorem clickInv_step (s : ClickState) (b t : Int) (acc : List Int)
    (inv : ClickInv s b acc) (hbt : b < t) :
    ClickInv (clickStep s t).2 t (acc ++ if (clickStep s t).1 then [t] else []) := by
  have hRW : (0:Int) < RATE_LIMIT_WINDOW := by decide
  by_cases hdeb : ∃ l, s.last = some l ∧ t - l < MICRO_DEBOUNCE_WINDOW
  · obtain ⟨l, hl, hd⟩ := hdeb
    rw [clickStep_debounce s t l hl hd]
    rw [show (acc ++ if (false, s).1 then [t] else []) = acc by simp]
    exact ⟨inv.wSorted, inv.wMem,
      fun x hx => le_trans (inv.wBound x hx) hbt.le,
      fun a ha => le_trans (inv.accBound a ha) hbt.le,
      fun a ha => (inv.accInWindow a ha).imp id (fun h => by omega),
      inv.lastEq, inv.accSorted, inv.accGap, inv.accDense⟩
  · have hstep : clickStep s t = clickWindowStep s t := by
      cases hlast : s.last with
      | none => exact clickStep_none s t hlast
      | some l =>
        refine clickStep_pass s t l hlast fun hd => hdeb ⟨l, hlast, hd⟩
    have hgap_ok : ∀ l, s.last = some l → MICRO_DEBOUNCE_WINDOW ≤ t - l := by
      intro l hl
      by_contra h
      exact hdeb ⟨l, hl, by omega⟩
    rw [hstep]
    have hwSorted : (evictOld t s.window).Sorted (· < ·) :=
      inv.wSorted.sublist (evictOld_suffix t s.window).sublist
    have hmemw := mem_evictOld t s.window inv.wSorted
    by_cases hfull : RATE_LIMIT_COUNT ≤ (evictOld t s.window).length
    · rw [(clickWindowStep_spec s t).1 hfull]
      rw [show (acc ++ if (false, (⟨evictOld t s.window, s.last⟩ : ClickState)).1
          then [t] else []) = acc by simp]
      show ClickInv ⟨evictOld t s.window, s.last⟩ t acc
      refine ⟨hwSorted,
        fun x hx => inv.wMem x ((hmemw x).mp hx).1,
        fun x hx => le_trans (inv.wBound x ((hmemw x).mp hx).1) hbt.le,
        fun a ha => le_trans (inv.accBound a ha) hbt.le,
        ?_, inv.lastEq, inv.accSorted, inv.accGap, inv.accDense⟩
      intro a ha
      rcases inv.accInWindow a ha with hIn | hOld
      · by_cases hkeep : t - RATE_LIMIT_WINDOW ≤ a
        · exact Or.inl ((hmemw a).mpr ⟨hIn, hkeep⟩)
        · exact Or.inr (by omega)
      · exact Or.inr (by omega)
    · rw [(clickWindowStep_spec s t).2 hfull]
      rw [show (acc ++ if (true, (⟨evictOld t s.window ++ [t], some t⟩ : ClickState)).1
          then [t] else []) = acc ++ [t] by simp]
      show ClickInv ⟨evictOld t s.window ++ [t], some t⟩ t (acc ++ [t])
      have haccLt : ∀ a ∈ acc, a < t := fun a ha => lt_of_le_of_lt (inv.accBound a ha) hbt
      have hwLt : ∀ x ∈ evictOld t s.window, x < t :=
        fun x hx => lt_of_le_of_lt (inv.wBound x ((hmemw x).mp hx).1) hbt
      refine ⟨?_, ?_, ?_, ?_, ?_, ?_, ?_, ?_, ?_⟩
      · show List.Pairwise (· < ·) (evictOld t s.window ++ [t])
        rw [List.pairwise_append]
        refine ⟨hwSorted, by simp, ?_⟩
        intro x hx y hy
        rw [List.mem_singleton] at hy
        rw [hy]
        exact hwLt x hx
      · intro x hx
        rcases List.mem_append.mp hx with h | h
        · exact List.mem_append_left _ (inv.wMem x ((hmemw x).mp h).1)
        · rw [List.mem_singleton] at h
          rw [h]
          exact List.mem_append_right _ (List.mem_singleton_self t)
      · intro x hx
        rcases List.mem_append.mp hx with h | h
        · exact (hwLt x h).le
        · rw [List.mem_singleton] at h
          rw [h]
      · intro a ha
        rcases List.mem_append.mp ha with h | h
        · exact (haccLt a h).le
        · rw [List.mem_singleton] at h
          rw [h]
      · intro a ha
        rcases List.mem_append.mp ha with h | h
        · rcases inv.accInWindow a h with hIn | hOld
          · by_cases hkeep : t - RATE_LIMIT_WINDOW ≤ a
            · exact Or.inl (List.mem_append_left _ ((hmemw a).mpr ⟨hIn, hkeep⟩))
            · exact Or.inr (by omega)
          · exact Or.inr (by omega)
        · rw [List.mem_singleton] at h
          rw [h]
          exact Or.inl (List.mem_append_right _ (List.mem_singleton_self t))
      · show some t = (acc ++ [t]).getLast?
        rw [List.getLast?_concat]
      · show List.Pairwise (· < ·) (acc ++ [t])
        rw [List.pairwise_append]
        refine ⟨inv.accSorted, by simp, ?_⟩
        intro x hx y hy
        rw [List.mem_singleton] at hy
        rw [hy]
        exact haccLt x hx
      · rw [List.chain'_append]
        refine ⟨inv.accGap, List.chain'_singleton _, ?_⟩
        intro x hx y hy
        simp only [List.head?_cons, Option.mem_def, Option.some.injEq] at hy
        rw [← hy]
        have hlx : s.last = some x := by
          rw [inv.lastEq]
          exact hx
        have := hgap_ok x hlx
        omega
      · intro u hu
        rw [List.countP_append]
        rcases List.mem_append.mp hu with h | h
        · have ht0 : inWindowAt u t = false := by
            have := haccLt u h
            rw [inWindowAt]
            simp only [Bool.and_eq_false_iff, decide_eq_false_iff_not]
            right
            omega
          rw [List.countP_singleton, ht0]
          simpa using inv.accDense u h
        · rw [List.mem_singleton] at h
          rw [h]
          have htt : inWindowAt t t = true := by
            rw [inWindowAt]
            simp only [Bool.and_eq_true, decide_eq_true_eq]
            omega
          have h1 : List.countP (inWindowAt t) [t] = 1 := by
            simp [List.countP_singleton, htt]
          rw [h1]
          have hsub2 : ∀ a ∈ acc.filter (inWindowAt t), a ∈ evictOld t s.window := by
            intro a ha
            obtain ⟨haA, haP⟩ := List.mem_filter.mp ha
            rw [inWindowAt, Bool.and_eq_true, decide_eq_true_eq, decide_eq_true_eq] at haP
            rcases inv.accInWindow a haA with hIn | hOld
            · exact (hmemw a).mpr ⟨hIn, haP.1⟩
            · omega
          have hnd : (acc.filter (inWindowAt t)).Nodup :=
            (inv.accSorted.imp ne_of_lt).filter _
          have hle : (acc.filter (inWindowAt t)).length ≤ (evictOld t s.window).length :=
            (hnd.subperm fun a ha => hsub2 a ha).length_le
          rw [List.countP_eq_length_filter]
          omega

/-- Running any later strictly increasing click sequence preserves the
invariant, accumulating the accepted clicks. -/
theorem clickInv_run : ∀ (ts : List Int) (s : ClickState) (b : Int) (acc : List Int),
    ClickInv s b acc → (b :: ts).Chain' (· < ·) →
    ∃ b2, ClickInv (runClicks s ts).1 b2 (acc ++ (runClicks s ts).2)
  | [], s, b, acc, inv, _ => ⟨b, by simpa [runClicks] using inv⟩
  | t :: ts, s, b, acc, inv, hch => by
    have h1 : b < t := (List.chain'_cons.mp hch).1
    have h2 : (t :: ts).Chain' (· < ·) := (List.chain'_cons.mp hch).2
    have inv2 := clickInv_step s b t acc inv h1
    obtain ⟨b2, h⟩ := clickInv_run ts (clickStep s t).2 t
      (acc ++ if (clickStep s t).1 then [t] else []) inv2 h2
    refine ⟨b2, ?_⟩
    simp only [runClicks]
    cases hc : (clickStep s t).1 with
    | true =>
      rw [hc] at h
      simpa using h
    | false =>
      rw [hc] at h
      simpa using h

/-- C2: for every strictly increasing click-timestamp sequence, the
accepted subsequence has at most `RATE_LIMIT_COUNT` entries in any trailing
`RATE_LIMIT_WINDOW`, and any two accepted clicks are at least
`MICRO_DEBOUNCE_WINDOW` apart — the limiter rejects a click within the
micro-debounce of the last accepted click, evicts expired window entries
and rejects when the remaining window is full (see `clickStep`). -/
theorem c2_rate_limit (ts : List Int) (hts : ts.Chain' (· < ·)) :
    (∀ x : Int, (acceptedClicks ts).countP (inWindowAt x) ≤ RATE_LIMIT_COUNT)
    ∧ (acceptedClicks ts).Pairwise (fun a b => a + MICRO_DEBOUNCE_WINDOW ≤ b) := by
  obtain ⟨b2, inv⟩ : ∃ b2, ClickInv (runClicks initClickState ts).1 b2 (acceptedClicks ts) := by
    cases ts with
    | nil => exact ⟨0, clickInv_init 0⟩
    | cons t ts2 =>
      have h0 := clickInv_run (t :: ts2) initClickState (t - 1) [] (clickInv_init (t - 1))
        (List.chain'_cons.mpr ⟨by omega, hts⟩)
      simpa [acceptedClicks] using h0
  constructor
  · intro x
    rw [List.countP_eq_length_filter]
    cases hm : ((acceptedClicks ts).filter (inWindowAt x)).maximum with
    | bot =>
      rw [List.maximum_eq_none.mp hm]
      simp
    | coe m =>
      have hmem := List.maximum_mem hm
      obtain ⟨hmA, hmP⟩ := List.mem_filter.mp hmem
      have hmono : ((acceptedClicks ts).filter (inWindowAt x)).length
          ≤ (acceptedClicks ts).countP (inWindowAt m) := by
        rw [← List.countP_eq_length_filter]
        refine List.countP_mono_left ?_
        intro a ha hpa
        have haS : a ∈ (acceptedClicks ts).filter (inWindowAt x) :=
          List.mem_filter.mpr ⟨ha, hpa⟩
        have ham := List.le_maximum_of_mem haS hm
        rw [inWindowAt] at hpa hmP ⊢
        simp only [Bool.and_eq_true, decide_eq_true_eq] at hpa hmP ⊢
        omega
      exact le_trans hmono (inv.accDense m hmA)
  · haveI : IsTrans Int (fun a b => a + MICRO_DEBOUNCE_WINDOW ≤ b) :=
      ⟨fun a b c h1 h2 => by
        have hM : (0:Int) ≤ MICRO_DEBOUNCE_WINDOW := by decide
        omega⟩
    exact List.chain'_iff_pairwise.mp inv.accGap

/-- C2 witness: a concrete burst of clicks. -/
theorem c2_witness :
    ([0, 100, 250, 600, 2000] : List Int).Chain' (· < ·)
    ∧ (acceptedClicks [0, 100, 250, 600, 2000]).countP (inWindowAt 700) ≤ RATE_LIMIT_COUNT
    ∧ (acceptedClicks [0, 100, 250, 600, 2000]).Pairwise
        (fun a b => a + MICRO_DEBOUNCE_WINDOW ≤ b) := by
  have h := c2_rate_limit [0, 100, 250, 600, 2000] (by norm_num [List.chain'_cons])
  exact ⟨by norm_num [List.chain'_cons], h.1 700, h.2⟩

/-- A lookup miss means no key matches. -/
theorem lookupStr_eq_none :
    ∀ (l : List (Str × PyVal)) (k : Str), lookupStr l k = none ↔ ∀ p ∈ l, p.1 ≠ k
  | [], k => by simp [lookupStr]
  | (k0, v0) :: rest, k => by
    rw [lookupStr]
    by_cases hk : k0 = k
    · subst hk
      rw [if_pos rfl]
      constructor
      · intro h
        exact absurd h (Option.some_ne_none v0)
      · intro h
        exact absurd rfl (h (k0, v0) (List.mem_cons_self _ _))
    · rw [if_neg hk, lookupStr_eq_none rest k]
      constructor
      · intro h p hp
        rcases List.mem_cons.mp hp with rfl | h2
        · exact hk
        · exact h p h2
      · intro h p hp
        exact h p (List.mem_cons_of_mem _ hp)

/-- Appending a single entry behind a table only matters on a miss. -/
theorem lookupStr_append_single (refs : List (Str × PyVal)) (k0 k : Str) (v : PyVal) :
    lookupStr (refs ++ [(k0, v)]) k
      = (lookupStr refs k).or (if k0 = k then some v else none) := by
  cases h : lookupStr refs k with
  | some w =>
    rw [lookupStr_append_left refs _ k w h]
    rfl
  | none =>
    rw [lookupStr_append_right refs _ k
      (fun p hp => (lookupStr_eq_none refs k).mp h p hp)]
    rw [Option.none_or]
    by_cases hk : k0 = k <;> simp [lookupStr, hk]

/-- Case equation: a bundled event leaves the reference table alone and
emits nothing on the dedup path. -/
theorem processOne_bundled (d : PyVal → PyVal → DiffResult) (refs : RefTable) (e : PyVal)
    (h : isBundled e = true) : processOne d refs e = (refs, []) := by
  simp [processOne, h]

/-- Case equation: a first-seen fingerprint stores the event as reference
and emits the one `NETWORK_REQUEST` record. -/
theorem processOne_new (d : PyVal → PyVal → DiffResult) (refs : RefTable) (e : PyVal)
    (h : isBundled e = false) (h2 : lookupStr refs (eventFp e) = none) :
    processOne d refs e
      = (refs ++ [(eventFp e, e)],
         [("NETWORK_REQUEST".toList,
           setKey (simplifyEvent e) "tab_id".toList (.str (tabStr e)))]) := by
  have h2s : lookupStr refs (fingerprint (tabStr e) (methodStr e) (urlStr e)) = none := h2
  simp [processOne, h, h2s, eventFp]

/-- Case equation: a repeated fingerprint never touches the reference
table. -/
theorem processOne_dup_refs (d : PyVal → PyVal → DiffResult) (refs : RefTable) (e r : PyVal)
    (h : isBundled e = false) (h2 : lookupStr refs (eventFp e) = some r) :
    (processOne d refs e).1 = refs := by
  have h2s : lookupStr refs (fingerprint (tabStr e) (methodStr e) (urlStr e)) = some r := h2
  simp only [processOne, h, Bool.false_eq_true, if_false, h2s]
  split <;> rfl

/-- Case equation: a repeated fingerprint never emits a `NETWORK_REQUEST`
(only, possibly, a `NETWORK_DIFF`). -/
theorem processOne_dup_noreq (d : PyVal → PyVal → DiffResult) (refs : RefTable) (e r : PyVal)
    (h : isBundled e = false) (h2 : lookupStr refs (eventFp e) = some r) :
    (processOne d refs e).2.countP (fun rc => rc.1 = "NETWORK_REQUEST".toList) = 0 := by
  have h2s : lookupStr refs (fingerprint (tabStr e) (methodStr e) (urlStr e)) = some r := h2
  simp only [processOne, h, Bool.false_eq_true, if_false, h2s]
  split
  · rfl
  · rw [List.countP_singleton]
    simp

/-- Case equation: an event identical to its stored reference emits
nothing at all (the diff of a value with itself has no changed values). -/
theorem processOne_dup_same (d : PyVal → PyVal → DiffResult) (refs : RefTable) (e : PyVal)
    (h : isBundled e = false) (h2 : lookupStr refs (eventFp e) = some e)
    (h3 : computeChanges (d e e) = []) :
    processOne d refs e = (refs, []) := by
  have h2s : lookupStr refs (fingerprint (tabStr e) (methodStr e) (urlStr e)) = some e := h2
  simp [processOne, h, h2s, h3]

/-- A diff with no `values_changed` entries filters to no changes. -/
theorem computeChanges_of_nil (d2 : DiffResult) (h : d2.valuesChanged = []) :
    computeChanges d2 = [] := by
  rw [computeChanges, h]
  rfl

/-- The reference stored for a fingerprint after a run is the previously
stored one, or else the first processed event carrying that fingerprint. -/
theorem processTrace_refs (d : PyVal → PyVal → DiffResult) :
    ∀ (events : List PyVal) (refs : RefTable) (fp : Str),
    (∀ e ∈ events, isBundled e = false) →
    lookupStr (processTrace d refs events).2 fp
      = (lookupStr refs fp).or (events.find? fun e => eventFp e = fp)
  | [], refs, fp, _ => by
    simp [processTrace]
  | e :: es, refs, fp, hnb => by
    have hnbe : isBundled e = false := hnb e (List.mem_cons_self _ _)
    have hnbes : ∀ x ∈ es, isBundled x = false := fun x hx => hnb x (List.mem_cons_of_mem _ hx)
    rw [show (processTrace d refs (e :: es)).2
        = (processTrace d (processOne d refs e).1 es).2 from rfl]
    rw [processTrace_refs d es (processOne d refs e).1 fp hnbes]
    cases hl : lookupStr refs (eventFp e) with
    | none =>
      rw [show (processOne d refs e).1 = refs ++ [(eventFp e, e)] by
        rw [processOne_new d refs e hnbe hl]]
      rw [lookupStr_append_single]
      by_cases hfp : eventFp e = fp
      · rw [List.find?_cons_of_pos _ (by simpa using hfp), if_pos hfp]
        cases h0 : lookupStr refs fp with
        | none => simp
        | some w =>
          rw [← hfp] at h0
          rw [h0] at hl
          cases hl
      · rw [List.find?_cons_of_neg _ (by simpa using hfp), if_neg hfp]
        simp [Option.or_assoc]
    | some r =>
      rw [processOne_dup_refs d refs e r hnbe hl]
      by_cases hfp : eventFp e = fp
      · rw [List.find?_cons_of_pos _ (by simpa using hfp)]
        rw [← hfp, hl]
        rfl
      · rw [List.find?_cons_of_neg _ (by simpa using hfp)]

/-- The number of `NETWORK_REQUEST` records emitted for a fingerprint is
one exactly when the fingerprint is new to the table and occurs. -/
theorem processTrace_count (d : PyVal → PyVal → DiffResult) :
    ∀ (events : List PyVal) (refs : RefTable) (fp : Str),
    (∀ e ∈ events, isBundled e = false) →
    netReqCountFor d refs events fp
      = if (lookupStr refs fp).isSome then 0
        else (if events.any (fun e => eventFp e = fp) then 1 else 0)
  | [], refs, fp, _ => by
    simp [netReqCountFor, processTrace]
  | e :: es, refs, fp, hnb => by
    have hnbe : isBundled e = false := hnb e (List.mem_cons_self _ _)
    have hnbes : ∀ x ∈ es, isBundled x = false := fun x hx => hnb x (List.mem_cons_of_mem _ hx)
    have hstep : netReqCountFor d refs (e :: es) fp
        = (if (eventFp e = fp : Bool)
            then (processOne d refs e).2.countP (fun rc => rc.1 = "NETWORK_REQUEST".toList)
            else 0)
          + netReqCountFor d (processOne d refs e).1 es fp := by
      rw [netReqCountFor, show (processTrace d refs (e :: es)).1
          = (e, (processOne d refs e).2) :: (processTrace d (processOne d refs e).1 es).1 from rfl]
      rw [List.filter_cons]
      by_cases hfp : eventFp e = fp
      · rw [if_pos (by simpa using hfp), if_pos (by simpa using hfp)]
        simp [netReqCountFor, List.countP_append]
      · rw [if_neg (by simpa using hfp), if_neg (by simpa using hfp)]
        simp [netReqCountFor]
    rw [hstep, processTrace_count d es (processOne d refs e).1 fp hnbes]
    rw [List.any_cons]
    cases hl : lookupStr refs (eventFp e) with
    | none =>
      rw [show (processOne d refs e).1 = refs ++ [(eventFp e, e)] by
        rw [processOne_new d refs e hnbe hl]]
      rw [lookupStr_append_single]
      by_cases hfp : eventFp e = fp
      · have h0 : lookupStr refs fp = none := by rw [← hfp]; exact hl
        have hcount : (processOne d refs e).2.countP
            (fun rc => rc.1 = "NETWORK_REQUEST".toList) = 1 := by
          rw [processOne_new d refs e hnbe hl, List.countP_singleton]
          simp
        rw [if_pos (show decide (eventFp e = fp) = true from by simpa using hfp),
          hcount, h0, Option.none_or, if_pos hfp]
        simp [hfp]
      · rw [if_neg (show ¬ decide (eventFp e = fp) = true from by simpa using hfp),
          if_neg hfp, Option.or_none]
        simp [hfp]
    | some r =>
      rw [processOne_dup_refs d refs e r hnbe hl]
      by_cases hfp : eventFp e = fp
      · have h0 : lookupStr refs fp = some r := by rw [← hfp]; exact hl
        have hcount := processOne_dup_noreq d refs e r hnbe hl
        rw [if_pos (show decide (eventFp e = fp) = true from by simpa using hfp),
          hcount, h0]
        simp
      · rw [if_neg (show ¬ decide (eventFp e = fp) = true from by simpa using hfp)]
        simp [hfp]

/-- C1: for any run of non-bundled network events (well-formed in the
fields the dedup path reads), and any fingerprint: the stored reference is
the first event with that fingerprint and is never updated or replaced by
later events; exactly one `NETWORK_REQUEST` is emitted among the records
of the events with that fingerprint when it occurs at all (and it is
emitted by the first such event); and an event that is byte-identical to
its stored reference emits no record, because the structural diff of a
value with itself has no changed values. -/
theorem c1_dedup (d : PyVal → PyVal → DiffResult)
    (hd : ∀ x, (d x x).valuesChanged = [])
    (events : List PyVal)
    (hnb : ∀ e ∈ events, isBundled e = false)
    (hwf : ∀ e ∈ events, wfNet e = true)
    (fp : Str) :
    lookupStr (processTrace d [] events).2 fp = events.find? (fun e => eventFp e = fp)
    ∧ netReqCountFor d [] events fp
        = (if events.any (fun e => eventFp e = fp) then 1 else 0)
    ∧ (∀ pre e post, events = pre ++ e :: post → eventFp e = fp →
        pre.find? (fun x => eventFp x = fp) = none →
        (processOne d (processTrace d [] pre).2 e).2
          = [("NETWORK_REQUEST".toList,
              setKey (simplifyEvent e) "tab_id".toList (.str (tabStr e)))])
    ∧ (∀ pre e post, events = pre ++ e :: post →
        pre.find? (fun x => eventFp x = eventFp e) = some e →
        (processOne d (processTrace d [] pre).2 e).2 = []) := by
  refine ⟨?_, ?_, ?_, ?_⟩
  · rw [processTrace_refs d events [] fp hnb]
    rfl
  · rw [processTrace_count d events [] fp hnb]
    rfl
  · intro pre e post hev hfp hfind
    have hnbp : ∀ x ∈ pre, isBundled x = false :=
      fun x hx => hnb x (by rw [hev]; exact List.mem_append_left _ hx)
    have hnbe : isBundled e = false :=
      hnb e (by rw [hev]; exact List.mem_append_right _ (List.mem_cons_self _ _))
    have hlook : lookupStr (processTrace d [] pre).2 fp = none := by
      rw [processTrace_refs d pre [] fp hnbp, hfind]
      rfl
    rw [← hfp] at hlook
    rw [processOne_new d _ e hnbe hlook]
  · intro pre e post hev hfind
    have hnbp : ∀ x ∈ pre, isBundled x = false :=
      fun x hx => hnb x (by rw [hev]; exact List.mem_append_left _ hx)
    have hnbe : isBundled e = false :=
      hnb e (by rw [hev]; exact List.mem_append_right _ (List.mem_cons_self _ _))
    have hlook : lookupStr (processTrace d [] pre).2 (eventFp e) = some e := by
      rw [processTrace_refs d pre [] (eventFp e) hnbp, hfind]
      rfl
    rw [processOne_dup_same d _ e hnbe hlook (computeChanges_of_nil _ (hd e))]

set_option maxRecDepth 8000 in
/-- C1 witness: the same XHR request processed twice — with a diff model
that reports no changed values on identical inputs — stores one reference,
emits one `NETWORK_REQUEST` in total, and the identical repeat emits
nothing. -/
theorem c1_witness :
    (∀ e ∈ [PyVal.dict [("tab_id".toList, PyVal.str "main".toList),
                ("type".toList, PyVal.str "XHR".toList),
                ("request".toList, PyVal.dict [("url".toList, PyVal.str "https://x.test/api?foo=1".toList),
                  ("method".toList, PyVal.str "GET".toList)])],
             PyVal.dict [("tab_id".toList, PyVal.str "main".toList),
                ("type".toList, PyVal.str "XHR".toList),
                ("request".toList, PyVal.dict [("url".toList, PyVal.str "https://x.test/api?foo=1".toList),
                  ("method".toList, PyVal.str "GET".toList)])]],
        isBundled e = false ∧ wfNet e = true)
    ∧ netReqCountFor (fun _ _ => ⟨[], [], []⟩) []
        [PyVal.dict [("tab_id".toList, PyVal.str "main".toList),
            ("type".toList, PyVal.str "XHR".toList),
            ("request".toList, PyVal.dict [("url".toList, PyVal.str "https://x.test/api?foo=1".toList),
              ("method".toList, PyVal.str "GET".toList)])],
         PyVal.dict [("tab_id".toList, PyVal.str "main".toList),
            ("type".toList, PyVal.str "XHR".toList),
            ("request".toList, PyVal.dict [("url".toList, PyVal.str "https://x.test/api?foo=1".toList),
              ("method".toList, PyVal.str "GET".toList)])]]
        (eventFp (PyVal.dict [("tab_id".toList, PyVal.str "main".toList),
            ("type".toList, PyVal.str "XHR".toList),
            ("request".toList, PyVal.dict [("url".toList, PyVal.str "https://x.test/api?foo=1".toList),
              ("method".toList, PyVal.str "GET".toList)])]))
      = (if ([PyVal.dict [("tab_id".toList, PyVal.str "main".toList),
                ("type".toList, PyVal.str "XHR".toList),
                ("request".toList, PyVal.dict [("url".toList, PyVal.str "https://x.test/api?foo=1".toList),
                  ("method".toList, PyVal.str "GET".toList)])],
             PyVal.dict [("tab_id".toList, PyVal.str "main".toList),
                ("type".toList, PyVal.str "XHR".toList),
                ("request".toList, PyVal.dict [("url".toList, PyVal.str "https://x.test/api?foo=1".toList),
                  ("method".toList, PyVal.str "GET".toList)])]].any
              fun e => eventFp e = eventFp (PyVal.dict [("tab_id".toList, PyVal.str "main".toList),
                ("type".toList, PyVal.str "XHR".toList),
                ("request".toList, PyVal.dict [("url".toList, PyVal.str "https://x.test/api?foo=1".toList),
                  ("method".toList, PyVal.str "GET".toList)])]))
          then 1 else 0)
    ∧ (processOne (fun _ _ => ⟨[], [], []⟩)
        (processTrace (fun _ _ => ⟨[], [], []⟩) []
          [PyVal.dict [("tab_id".toList, PyVal.str "main".toList),
              ("type".toList, PyVal.str "XHR".toList),
              ("request".toList, PyVal.dict [("url".toList, PyVal.str "https://x.test/api?foo=1".toList),
                ("method".toList, PyVal.str "GET".toList)])]]).2
        (PyVal.dict [("tab_id".toList, PyVal.str "main".toList),
            ("type".toList, PyVal.str "XHR".toList),
            ("request".toList, PyVal.dict [("url".toList, PyVal.str "https://x.test/api?foo=1".toList),
              ("method".toList, PyVal.str "GET".toList)])])).2 = [] := by
  have h := c1_dedup (fun _ _ => ⟨[], [], []⟩) (fun _ => rfl)
    [PyVal.dict [("tab_id".toList, PyVal.str "main".toList),
        ("type".toList, PyVal.str "XHR".toList),
        ("request".toList, PyVal.dict [("url".toList, PyVal.str "https://x.test/api?foo=1".toList),
          ("method".toList, PyVal.str "GET".toList)])],
     PyVal.dict [("tab_id".toList, PyVal.str "main".toList),
        ("type".toList, PyVal.str "XHR".toList),
        ("request".toList, PyVal.dict [("url".toList, PyVal.str "https://x.test/api?foo=1".toList),
          ("method".toList, PyVal.str "GET".toList)])]]
    (by decide) (by decide)
    (eventFp (PyVal.dict [("tab_id".toList, PyVal.str "main".toList),
        ("type".toList, PyVal.str "XHR".toList),
        ("request".toList, PyVal.dict [("url".toList, PyVal.str "https://x.test/api?foo=1".toList),
          ("method".toList, PyVal.str "GET".toList)])]))
  refine ⟨by decide, h.2.1, ?_⟩
  exact h.2.2.2
    [PyVal.dict [("tab_id".toList, PyVal.str "main".toList),
        ("type".toList, PyVal.str "XHR".toList),
        ("request".toList, PyVal.dict [("url".toList, PyVal.str "https://x.test/api?foo=1".toList),
          ("method".toList, PyVal.str "GET".toList)])]]
    (PyVal.dict [("tab_id".toList, PyVal.str "main".toList),
        ("type".toList, PyVal.str "XHR".toList),
        ("request".toList, PyVal.dict [("url".toList, PyVal.str "https://x.test/api?foo=1".toList),
          ("method".toList, PyVal.str "GET".toList)])])
    [] rfl rfl
